import Mathlib

/-!
Verification of the process-scheduling core of the MTL458 assignments
repository: the five scheduling policies of `offline_schedulers.h`
(FCFS, RoundRobin, MultiLevelFeedbackQueue) and `online_schedulers.h`
(ShortestJobFirst, online MultiLevelFeedbackQueue), together with the
burst-time predictor hash table shared by the online policies.

The C code is shallowly embedded: `uint64_t` arithmetic is modelled on
`Nat` with explicit wrap-around (`u64sub`, `u64add`); the OS environment
(clock readings, fork results, waitpid outcomes) is supplied to each
scheduler as an explicit event trace, and each scheduling loop is a
fuel-bounded iteration of a step function on an explicit state.
-/

namespace Sched

/-- 2^64, the modulus of C `uint64_t` arithmetic. -/
def W : Nat := 18446744073709551616

/-- C `uint64_t` subtraction `a - b`, wrapping modulo 2^64. -/
def u64sub (a b : Nat) : Nat := (a + (W - b % W)) % W

/-- C `uint64_t` addition `a + b`, wrapping modulo 2^64. -/
def u64add (a b : Nat) : Nat := (a + b) % W

/-- The `Process` struct shared by `offline_schedulers.h` and
`online_schedulers.h` (lines 31-49 of each).  `uint64_t` fields are `Nat`
values below 2^64; `process_id` (a C `int`) is an `Int`, -1 before the
first fork.  Field defaults are only a convenience for building concrete
records; the schedulers initialize records explicitly. -/
structure Process where
  command : String
  finished : Bool := false
  error : Bool := false
  started : Bool := false
  arrival_time : Nat := 0
  start_time : Nat := 0
  context_start_time : Nat := 0
  context_end_time : Nat := 0
  completion_time : Nat := 0
  burst_time : Nat := 0
  turnaround_time : Nat := 0
  waiting_time : Nat := 0
  response_time : Nat := 0
  process_id : Int := -1
  deriving Repr, DecidableEq

instance : Inhabited Process := ⟨{ command := "" }⟩

/-- `initializeProcess` (offline_schedulers.h lines 329-347), the per-record
body of the initialization loop: every flag cleared, every timestamp and
metric zeroed, pid -1. -/
def initializeProcess (p : Process) : Process :=
  { p with
    finished := false, error := false, started := false,
    arrival_time := 0, start_time := 0, context_start_time := 0,
    context_end_time := 0, completion_time := 0, burst_time := 0,
    turnaround_time := 0, waiting_time := 0, response_time := 0,
    process_id := -1 }

/-- Parent branch of `executeProcess` (offline lines 414-443, online lines
606-635): `forkResult` is the value returned by `fork()`.  On failure
(`forkResult < 0`) only a diagnostic is printed and the record is unchanged;
otherwise the child pid is stored and the record is marked started with
`start_time = context_start_time = now`, where `now` is the value of
`getCurrentTimeInMilliseconds() - t0`.  The child branch is modelled
separately by `childExitCode`. -/
def executeProcess (p : Process) (now : Nat) (forkResult : Int) : Process :=
  if forkResult < 0 then p
  else { p with
    process_id := forkResult, started := true,
         start_time := now, context_start_time := now }

/-- `pauseProcess` (offline lines 452-464, online lines 644-656): returns
unchanged when the record is not started or already finished (the guard does
NOT test the error flag); otherwise sends SIGSTOP (a kill failure only
prints) and closes the slice: `context_end_time = now`,
`burst_time += context_end_time - context_start_time`. -/
def pauseProcess (p : Process) (now : Nat) : Process :=
  if p.started = false ∨ p.finished = true then p
  else { p with
    context_end_time := now,
         burst_time := u64add p.burst_time (u64sub now p.context_start_time) }

/-- `resumeProcess` (offline lines 473-484, online lines 665-676): same guard
as `pauseProcess`; otherwise sends SIGCONT and opens a new slice with
`context_start_time = now`. -/
def resumeProcess (p : Process) (now : Nat) : Process :=
  if p.started = false ∨ p.finished = true then p
  else { p with context_start_time := now }

/-- Whether `pauseProcess` reaches its `kill(pid, SIGSTOP)` call: exactly the
negation of the early-return guard. -/
def pauseProcessSignals (p : Process) : Bool :=
  !(p.started = false ∨ p.finished = true : Bool)

/-- Whether `resumeProcess` reaches its `kill(pid, SIGCONT)` call. -/
def resumeProcessSignals (p : Process) : Bool :=
  !(p.started = false ∨ p.finished = true : Bool)

/-- FCFS success branch (offline_schedulers.h lines 107-116): finalize all
metrics; `burst_time = completion_time - start_time`. -/
def fcfsFinish (p : Process) (now : Nat) : Process :=
  let completion := now
  let burst := u64sub completion p.start_time
  let turnaround := u64sub completion p.arrival_time
  { p with
    finished := true, completion_time := completion,
    context_end_time := completion, burst_time := burst,
    turnaround_time := turnaround,
    waiting_time := u64sub turnaround burst,
    response_time := u64sub p.start_time p.arrival_time }

/-- FCFS error branch (offline_schedulers.h lines 117-124): sets the error
flag, `context_end_time = now`, overwrites
`burst_time = context_end_time - context_start_time` and sets
`response_time`; turnaround, waiting and completion are left untouched. -/
def fcfsError (p : Process) (now : Nat) : Process :=
  { p with
    error := true, context_end_time := now,
    burst_time := u64sub now p.context_start_time,
    response_time := u64sub p.start_time p.arrival_time }

/-- Online SJF success branch (online_schedulers.h lines 218-227):
identical to `fcfsFinish` except the burst is written as
`context_end_time - context_start_time`. -/
def sjfFinish (p : Process) (now : Nat) : Process :=
  let completion := now
  let burst := u64sub completion p.context_start_time
  let turnaround := u64sub completion p.arrival_time
  { p with
    finished := true, completion_time := completion,
    context_end_time := completion, burst_time := burst,
    turnaround_time := turnaround,
    waiting_time := u64sub turnaround burst,
    response_time := u64sub p.start_time p.arrival_time }

/-- Online SJF error branch (online_schedulers.h lines 229-235): textually
identical to the FCFS error branch, burst overwritten with the slice
length. -/
def sjfError (p : Process) (now : Nat) : Process :=
  { p with
    error := true, context_end_time := now,
    burst_time := u64sub now p.context_start_time,
    response_time := u64sub p.start_time p.arrival_time }

/-- RoundRobin / offline-MLFQ / online-MLFQ success branch (offline lines
178-187 and 283-292, online lines 363-371): the final slice is accrued into
the accumulated burst. -/
def rrFinish (p : Process) (now : Nat) : Process :=
  let completion := now
  let burst := u64add p.burst_time (u64sub completion p.context_start_time)
  let turnaround := u64sub completion p.arrival_time
  { p with
    finished := true, completion_time := completion,
    context_end_time := completion, burst_time := burst,
    turnaround_time := turnaround,
    waiting_time := u64sub turnaround burst,
    response_time := u64sub p.start_time p.arrival_time }

/-- RoundRobin / offline-MLFQ / online-MLFQ error branch (offline lines
188-194 and 293-299, online lines 374-379): only the error flag,
`context_end_time` and `response_time` are written; burst, turnaround,
waiting and completion are left at their prior values. -/
def rrError (p : Process) (now : Nat) : Process :=
  { p with
    error := true, context_end_time := now,
    response_time := u64sub p.start_time p.arrival_time }

/-- The tokenizer loop of `parseCommand` (offline lines 492-577, online
lines 512-597): splits the input on runs of spaces and tabs.  `cur` holds
the token being accumulated, in reverse order.  The C reallocation-failure
exits cannot occur in the model (allocation always succeeds). -/
def parseTokensLoop : List Char → List Char → List String
  | [], cur => if cur = [] then [] else [String.mk cur.reverse]
  | c :: rest, cur =>
    if c = ' ' ∨ c = '\t' then
      if cur = [] then parseTokensLoop rest []
      else String.mk cur.reverse :: parseTokensLoop rest []
    else parseTokensLoop rest (c :: cur)

/-- `parseCommand`: returns `none` exactly where the C function returns NULL,
which happens only on allocation failure; since allocation is modelled as
always succeeding, the result is always `some` of the token vector (whose
terminating NULL pointer is implicit in the list end).  In particular an
empty or whitespace-only command yields `some []`, not `none`. -/
def parseCommand (input : String) : Option (List String) :=
  some (parseTokensLoop input.data [])

/-- Child branch of `executeProcess`: when `parseCommand` returns NULL the
child exits 0; otherwise it calls `execvp(tokens[0], tokens)`.
`execReplaces` says whether execvp succeeds, in which case the child image
is replaced (`none`); POSIX `execvp` with a NULL path - the case of an
empty token vector - always fails, which theorems record as a hypothesis.
On execvp failure the child prints a diagnostic and exits 1. -/
def childExitCode (cmd : String) (execReplaces : Bool) : Option Nat :=
  match parseCommand cmd with
  | none => some 0
  | some _ => if execReplaces then none else some 1

/-- Constants of online_schedulers.h lines 84-86: `MOD = 1e9 + 7`. -/
def MOD : Nat := 1000000007

def HASH_PRIME : Nat := 131

def NUM_CELLS : Nat := 3

/-- `HashTableNode` (online_schedulers.h lines 67-74).  The C struct also
declares an `int hash` field that is never initialized or read; it is
omitted.  `sum_burst_time` and `num_bursts` are C `int`s holding
non-negative values, modelled as `Nat`. -/
structure HashTableNode where
  command : String
  sum_burst_time : Nat
  num_bursts : Nat
  deriving Repr, DecidableEq

/-- The hash table of `Cell`s: a list of `NUM_CELLS` buckets, each a list of
nodes from head to tail (the C `size` field is the list length). -/
abbrev HashTable := List (List HashTableNode)

def emptyHashTable : HashTable := [[], [], []]

/-- `hashFunction` (online_schedulers.h lines 684-692): rolling polynomial
hash over the command bytes from the last character down to the first,
starting at 5147, reduced modulo `MOD` at each step.  Characters are taken
at their code-point value (equal to the C `char` byte for ASCII
commands). -/
def hashFunction (command : String) : Nat :=
  command.data.reverse.foldl (fun sum c => (sum * HASH_PRIME + c.toNat) % MOD) 5147

/-- `findNode` (online_schedulers.h lines 728-746): look into the bucket
`hashFunction command % NUM_CELLS` and scan it for a node whose command
compares equal.  (The C early return on `size == 0` coincides with scanning
an empty list.) -/
def findNode (hashTable : HashTable) (command : String) : Option HashTableNode :=
  let cell := hashTable.getD (hashFunction command % NUM_CELLS) []
  cell.find? (fun node => node.command == command)

/-- The in-place mutation of the first node matching `command` inside a
bucket, performed by the else-branch of `updateBurstTime`. -/
def updateNodeList : List HashTableNode → String → Nat → List HashTableNode
  | [], _, _ => []
  | node :: rest, command, burst =>
    if node.command == command then
      { node with
        sum_burst_time := node.sum_burst_time + burst,
        num_bursts := node.num_bursts + 1 } :: rest
    else node :: updateNodeList rest command burst

/-- `updateBurstTime` (online_schedulers.h lines 773-793): if no node for
`command` exists, a new node (sum = burst, count = 1) is pushed at the head
of the bucket for `hashFunction command % NUM_CELLS`; otherwise the first
matching node gets `sum += burst, count += 1`.  The C `burst_time`
parameter is an `int` receiving a small non-negative value, modelled as
`Nat`. -/
def updateBurstTime (hashTable : HashTable) (burst_time : Nat) (command : String) : HashTable :=
  let idx := hashFunction command % NUM_CELLS
  match findNode hashTable command with
  | none => hashTable.set idx
      ({ command := command, sum_burst_time := burst_time, num_bursts := 1 }
        :: hashTable.getD idx [])
  | some _ => hashTable.set idx (updateNodeList (hashTable.getD idx []) command burst_time)

/-- `getExpectedBurstTime` (online_schedulers.h lines 755-763): 1000 when the
command has no history, otherwise the truncated average `sum / count`. -/
def getExpectedBurstTime (hashTable : HashTable) (p : Process) : Nat :=
  match findNode hashTable p.command with
  | none => 1000
  | some node => node.sum_burst_time / node.num_bursts

/-- `getMLFQIndex` (online_schedulers.h lines 702-719): tier 1 for a command
with no history; otherwise tier 0 when the average burst is at most
`Quantum[0]`, tier 1 when at most `Quantum[1]`, else tier 2. -/
def getMLFQIndex (Quantum : List Nat) (p : Process) (hashTable : HashTable) : Nat :=
  match findNode hashTable p.command with
  | none => 1
  | some node =>
    let avgBurstTime := node.sum_burst_time / node.num_bursts
    if avgBurstTime ≤ Quantum.getD 0 0 then 0
    else if avgBurstTime ≤ Quantum.getD 1 0 then 1
    else 2

/-- The selection scan of `ShortestJobFirst` (online_schedulers.h lines
188-202): running minimum, starting from sentinel `minBurstTime = 1e9` and
`minIndex = -1`, skipping finished or errored records, strict `<`
comparison, so the first index attaining the minimum is kept.  `i` is the
index of the head of the remaining list; the accumulator is
`(minIndex, minBurstTime)`. -/
def sjfScan : List Process → HashTable → Nat → Int × Nat → Int × Nat
  | [], _, _, acc => acc
  | p :: ps, tbl, i, acc =>
    if p.finished || p.error then sjfScan ps tbl (i + 1) acc
    else
      let e := getExpectedBurstTime tbl p
      if e < acc.2 then sjfScan ps tbl (i + 1) (Int.ofNat i, e)
      else sjfScan ps tbl (i + 1) acc

def sjfSelect (ps : List Process) (tbl : HashTable) : Int × Nat :=
  sjfScan ps tbl 0 (-1, 1000000000)

/-- Environment outcomes for one blocking decision of `ShortestJobFirst`:
the clock value at `executeProcess`, the `fork` result, the blocking
`waitpid` outcome (`none` = waitpid returned < 0; `some ok` = exited, `ok`
iff `WIFEXITED && WEXITSTATUS == 0`) and the clock value at
finalization. -/
structure SJFEvent where
  tExec : Nat
  forkResult : Int
  wait : Option Bool
  tFin : Nat
  deriving Repr, DecidableEq

/-- One decision point of `ShortestJobFirst` after ingestion
(online_schedulers.h lines 188-242): select the minimum-estimate
non-terminal record; if one exists, execute it, block on `waitpid`,
finalize it in place, and on success register the recorded burst with the
predictor; on error or waitpid failure the predictor is untouched. -/
def sjfDecision (ps : List Process) (tbl : HashTable) (e : SJFEvent) :
    List Process × HashTable :=
  match sjfSelect ps tbl with
  | (Int.negSucc _, _) => (ps, tbl)
  | (Int.ofNat i, _) =>
    match ps[i]? with
    | none => (ps, tbl)
    | some p =>
      let p1 := executeProcess p e.tExec e.forkResult
      match e.wait with
      | none => (ps.set i p1, tbl)
      | some true =>
        let p2 := sjfFinish p1 e.tFin
        (ps.set i p2, updateBurstTime tbl p2.burst_time p2.command)
      | some false => (ps.set i (sjfError p1 e.tFin), tbl)

/-- Terminal handling of the online `MultiLevelFeedbackQueue`
(online_schedulers.h lines 360-383) once `waitpid` reports an exit: on
success the record is finalized and the predictor updated with the final
burst; on error the record gets the error treatment and the predictor is
left untouched. -/
def onlineMlfqTerminal (p : Process) (ok : Bool) (tFin : Nat) (tbl : HashTable) :
    Process × HashTable :=
  if ok then
    let p2 := rrFinish p tFin
    (p2, updateBurstTime tbl p2.burst_time p2.command)
  else (rrError p tFin, tbl)

/-- Arrival handling of the online `MultiLevelFeedbackQueue`
(online_schedulers.h lines 282-313): a fresh record is built (flags
cleared, pid -1, metrics zeroed, arrival stamped; fields the C code leaves
uninitialized stay at the struct defaults) and enqueued at the back of
queue `getMLFQIndex Quantum p hashTable`. -/
def onlineMlfqArrival (Quantum : List Nat) (tbl : HashTable)
    (qs : List (List Process)) (cmd : String) (tArr : Nat) : List (List Process) :=
  let p : Process := { command := cmd, arrival_time := tArr }
  let index := getMLFQIndex Quantum p tbl
  qs.set index (qs.getD index [] ++ [p])

/-- Environment outcomes for one FCFS loop iteration (offline_schedulers.h
lines 97-127): fork result and clock at `executeProcess`, blocking
`waitpid` outcome (`none` = waitpid returned < 0, the `continue` path;
`some ok` = exited) and the clock at finalization. -/
structure FCFSEvent where
  forkResult : Int
  tExec : Nat
  wait : Option Bool
  tFin : Nat
  deriving Repr, DecidableEq

/-- Body of one FCFS loop iteration (offline_schedulers.h lines 97-127). -/
def fcfsBody (p : Process) (e : FCFSEvent) : Process :=
  let p1 := executeProcess p e.tExec e.forkResult
  match e.wait with
  | none => p1
  | some true => fcfsFinish p1 e.tFin
  | some false => fcfsError p1 e.tFin

/-- The FCFS for-loop: record `i` is driven by event `i`; records beyond the
event list are left as they are (the event list is the whole run in every
theorem). -/
def fcfsRun : List Process → List FCFSEvent → List Process
  | [], _ => []
  | p :: ps, [] => p :: ps
  | p :: ps, e :: es => fcfsBody p e :: fcfsRun ps es

/-- `FCFS` (offline_schedulers.h lines 92-128): initialize every record, then
run each to completion in index order, one blocking wait per record. -/
def FCFS (ps : List Process) (es : List FCFSEvent) : List Process :=
  fcfsRun (ps.map initializeProcess) es

/-- Outcome of the non-blocking `waitpid(pid, &status, WNOHANG)` poll
after a quantum, with the clock readings the subsequent branch makes:
`fail` = waitpid returned < 0; `running tPause` = still running, the
branch calls `pauseProcess` at clock value `tPause`; `exited ok tFin` =
exited, finalized at clock value `tFin`. -/
inductive WaitResult where
  | fail : WaitResult
  | running (tPause : Nat) : WaitResult
  | exited (ok : Bool) (tFin : Nat) : WaitResult
  deriving Repr, DecidableEq

/-- Environment outcomes for one RoundRobin iteration that reaches the
dispatch: clock at `executeProcess`/`resumeProcess`, fork result (used only
when the record is not yet started), and the poll outcome. -/
structure RREvent where
  tRun : Nat
  forkResult : Int
  wait : WaitResult
  deriving Repr, DecidableEq

/-- State of the RoundRobin while-loop (offline_schedulers.h lines 143-201).
`halted` marks that the loop has exited (normally, via the waitpid-failure
`break`, or because the event supply ran out - a model artifact); `broke`
marks specifically the waitpid-failure `break` of lines 167-171. -/
structure RRState where
  procs : List Process
  i : Nat
  remaining : Nat
  halted : Bool
  broke : Bool
  events : List RREvent
  deriving Repr, DecidableEq

/-- One iteration of the RoundRobin while-loop (offline_schedulers.h lines
145-201). -/
def rrStep (s : RRState) : RRState :=
  if s.halted then s
  else if s.remaining = 0 then { s with halted := true }
  else
    match s.procs[s.i]? with
    | none => { s with halted := true }
    | some p =>
      if p.finished || p.error then
        { s with i := (s.i + 1) % s.procs.length }
      else
        match s.events with
        | [] => { s with halted := true }
        | e :: rest =>
          let p1 := if p.started = false then executeProcess p e.tRun e.forkResult
                    else resumeProcess p e.tRun
          match e.wait with
          | WaitResult.fail =>
            { s with
              procs := s.procs.set s.i p1, events := rest,
              halted := true, broke := true }
          | WaitResult.running tPause =>
            { s with
              procs := s.procs.set s.i (pauseProcess p1 tPause),
              events := rest, i := (s.i + 1) % s.procs.length }
          | WaitResult.exited ok tFin =>
            let p2 := if ok then rrFinish p1 tFin else rrError p1 tFin
            { s with
              procs := s.procs.set s.i p2, events := rest,
              remaining := s.remaining - 1, i := (s.i + 1) % s.procs.length }

def iterateStep {α : Type} (f : α → α) : Nat → α → α
  | 0, s => s
  | n + 1, s => iterateStep f n (f s)

def rrInit (ps : List Process) (es : List RREvent) : RRState :=
  { procs := ps.map initializeProcess, i := 0, remaining := ps.length,
    halted := false, broke := false, events := es }

/-- `RoundRobin` (offline_schedulers.h lines 138-202), as a fuel-bounded
iteration of `rrStep` from the initialized state. -/
def RoundRobin (fuel : Nat) (ps : List Process) (es : List RREvent) : RRState :=
  iterateStep rrStep fuel (rrInit ps es)

/-- Environment outcomes for one offline-MLFQ iteration that reaches the
dispatch, extending `RREvent` with the two clock readings of the boost
check (the comparison at line 306 and the assignment at line 308). -/
structure MLFQEvent where
  tRun : Nat
  forkResult : Int
  wait : WaitResult
  tBoostCheck : Nat
  tBoostSet : Nat
  deriving Repr, DecidableEq

/-- State of the offline `MultiLevelFeedbackQueue` while-loop
(offline_schedulers.h lines 215-320).  The three queues hold indices into
`procs` (the C queues hold `Process*` into the caller array).  Flags as in
`RRState`. -/
structure MLFQState where
  procs : List Process
  queues : List (List Nat)
  currentQueue : Nat
  remaining : Nat
  lastBoostTime : Nat
  boostTime : Nat
  halted : Bool
  broke : Bool
  events : List MLFQEvent
  deriving Repr, DecidableEq

/-- The boost of offline_schedulers.h lines 309-317: queues 1 and 2 are
drained, in order, to the back of queue 0. -/
def mlfqBoost (qs : List (List Nat)) : List (List Nat) :=
  [qs.getD 0 [] ++ qs.getD 1 [] ++ qs.getD 2 [], [], []]

/-- The boost check at the end of a dispatching iteration
(offline_schedulers.h lines 306-318): when at least `boostTime` ms have
passed since `lastBoostTime` (both relative to the scheduler epoch), all
waiting records of queues 1 and 2 are moved to queue 0. -/
def mlfqMaybeBoost (s : MLFQState) (e : MLFQEvent) : MLFQState :=
  if s.boostTime ≤ u64sub e.tBoostCheck s.lastBoostTime then
    { s with queues := mlfqBoost s.queues, lastBoostTime := e.tBoostSet }
  else s

/-- One iteration of the offline `MultiLevelFeedbackQueue` while-loop
(offline_schedulers.h lines 237-319). -/
def mlfqStep (s : MLFQState) : MLFQState :=
  if s.halted then s
  else if s.remaining = 0 then { s with halted := true }
  else
    match (s.queues.getD s.currentQueue []) with
    | [] => { s with currentQueue := (s.currentQueue + 1) % 3 }
    | j :: q =>
      let qs1 := s.queues.set s.currentQueue q
      match s.procs[j]? with
      | none => { s with halted := true }
      | some p =>
        if p.finished || p.error then { s with queues := qs1 }
        else
          match s.events with
          | [] => { s with halted := true }
          | e :: rest =>
            let p1 := if p.started = false then executeProcess p e.tRun e.forkResult
                      else resumeProcess p e.tRun
            match e.wait with
            | WaitResult.fail =>
              { s with
                procs := s.procs.set j p1, queues := qs1, events := rest,
                halted := true, broke := true }
            | WaitResult.running tPause =>
              let p2 := pauseProcess p1 tPause
              let target := if s.currentQueue < 2 then s.currentQueue + 1 else s.currentQueue
              let qs2 := qs1.set target (qs1.getD target [] ++ [j])
              mlfqMaybeBoost
                { s with procs := s.procs.set j p2, queues := qs2, events := rest } e
            | WaitResult.exited ok tFin =>
              let p2 := if ok then rrFinish p1 tFin else rrError p1 tFin
              mlfqMaybeBoost
                { s with
                  procs := s.procs.set j p2, queues := qs1,
                  remaining := s.remaining - 1, events := rest } e

/-- Initial state of the offline `MultiLevelFeedbackQueue`
(offline_schedulers.h lines 217-236): every record initialized and enqueued
into queue 0 in index order; `lastBoostTime = t0`, i.e. 0 relative to the
epoch.  The quanta only determine sleep lengths, which the event trace
already reflects. -/
def mlfqInit (ps : List Process) (es : List MLFQEvent) (boostTime : Nat) : MLFQState :=
  { procs := ps.map initializeProcess,
    queues := [List.range ps.length, [], []],
    currentQueue := 0, remaining := ps.length, lastBoostTime := 0,
    boostTime := boostTime, halted := false, broke := false, events := es }

/-- Offline `MultiLevelFeedbackQueue` (offline_schedulers.h lines 215-320)
as a fuel-bounded iteration of `mlfqStep`. -/
def MultiLevelFeedbackQueue (fuel : Nat) (ps : List Process) (es : List MLFQEvent)
    (boostTime : Nat) : MLFQState :=
  iterateStep mlfqStep fuel (mlfqInit ps es boostTime)

/-! ### Derived bookkeeping used to state predictor properties -/

/-- The hash table produced by a run history `l`: one (command, burst) pair
per successful completion, applied in order through `updateBurstTime`
starting from the empty table. -/
def predictorTable (l : List (String × Nat)) : HashTable :=
  l.foldl (fun tbl cb => updateBurstTime tbl cb.2 cb.1) emptyHashTable

/-- Total burst recorded for `cmd` by the history `l`. -/
def sumFor (l : List (String × Nat)) (cmd : String) : Nat :=
  ((l.filter (fun cb => cb.1 == cmd)).map Prod.snd).sum

/-- Number of successful completions of `cmd` in the history `l`. -/
def cntFor (l : List (String × Nat)) (cmd : String) : Nat :=
  (l.filter (fun cb => cb.1 == cmd)).length

/-- The cumulative effect of a history on the lookup result for `cmd`:
each matching update either creates the node (sum = burst, count = 1) or
bumps it (sum += burst, count += 1); non-matching updates are invisible. -/
def applyUpdates : List (String × Nat) → String → Option HashTableNode → Option HashTableNode
  | [], _, r => r
  | cb :: rest, cmd, r =>
    applyUpdates rest cmd
      (if cb.1 = cmd then
        match r with
        | none => some { command := cmd, sum_burst_time := cb.2, num_bursts := 1 }
        | some nd => some { nd with
            sum_burst_time := nd.sum_burst_time + cb.2,
            num_bursts := nd.num_bursts + 1 }
      else r)

/-- A record still in the running for scheduling: neither finished nor
errored (the skip test of the SJF scan and of the RR/MLFQ loops). -/
def eligible (p : Process) : Prop := (p.finished || p.error) = false

/-- Bound on the clock values an RR event carries (theorems use `fun t => t < W`
to say the readings are genuine `uint64_t` millisecond values). -/
def rrEventTimesOK (TOK : Nat → Prop) (e : RREvent) : Prop :=
  TOK e.tRun ∧
  match e.wait with
  | WaitResult.fail => True
  | WaitResult.running tPause => TOK tPause
  | WaitResult.exited _ tFin => TOK tFin

/-- Bound on the clock values an offline-MLFQ event carries. -/
def mlfqEventTimesOK (TOK : Nat → Prop) (e : MLFQEvent) : Prop :=
  TOK e.tRun ∧
  match e.wait with
  | WaitResult.fail => True
  | WaitResult.running tPause => TOK tPause
  | WaitResult.exited _ tFin => TOK tFin

/-- Bound on the clock values an FCFS event carries. -/
def fcfsEventTimesOK (TOK : Nat → Prop) (e : FCFSEvent) : Prop :=
  TOK e.tExec ∧ TOK e.tFin

/-! ### The online scheduling loops (online_schedulers.h lines 116-404)

The online loops own their records (heap allocations in C); the model keeps
them in a growing table `procs` and, for the online MLFQ, queues of indices
into it, exactly as the offline model does for `Process*` pointers.  Each
outer `while (true)` iteration is driven by one environment event carrying
the drained arrivals and the OS outcomes of the dispatch. -/

/-- One outer iteration of the online `ShortestJobFirst` loop: the arrivals
drained by `readInput` (command text with the newline already stripped, and
the arrival clock reading), and the outcomes of the blocking decision. -/
structure SJFIteration where
  arrivals : List (String × Nat)
  decision : SJFEvent
  deriving Repr, DecidableEq

/-- State of the online `ShortestJobFirst` loop (lines 116-244):
the ever-growing process list, the predictor table, and the count of
non-terminal records. -/
structure OnlineSJFState where
  procs : List Process
  table : HashTable
  remaining : Nat
  events : List SJFIteration
  deriving Repr, DecidableEq

/-- One arrival of the online SJF loop (lines 139-182): a fresh record
(flags cleared, pid -1, metrics zeroed, arrival stamped; fields the C code
leaves uninitialized stay at the struct defaults) appended to the process
list; `remainingProcesses` incremented. -/
def sjfArrive1 (st : OnlineSJFState) (cb : String × Nat) : OnlineSJFState :=
  { st with
    procs := st.procs ++ [{ command := cb.1, arrival_time := cb.2 }],
    remaining := st.remaining + 1 }

/-- The decision part of one `ShortestJobFirst` iteration (lines 183-242),
after the arrivals have been drained: if nothing remains, idle (usleep) and
loop; otherwise scan for the minimum-estimate non-terminal record; if none
is found below the sentinel, print and loop; otherwise execute it and block
on `waitpid`.  On waitpid failure the record is left started but
non-terminal; otherwise it is finalized (predictor updated only on success)
and `remainingProcesses` decremented. -/
def onlineSjfDispatch (st1 : OnlineSJFState) (ev : SJFIteration) : OnlineSJFState :=
  if st1.remaining = 0 then st1
  else
    match sjfSelect st1.procs st1.table with
    | (Int.negSucc _, _) => st1
    | (Int.ofNat i, _) =>
      match st1.procs[i]? with
      | none => st1
      | some p =>
        let p1 := executeProcess p ev.decision.tExec ev.decision.forkResult
        match ev.decision.wait with
        | none => { st1 with procs := st1.procs.set i p1 }
        | some true =>
          let p2 := sjfFinish p1 ev.decision.tFin
          { st1 with
            procs := st1.procs.set i p2,
            table := updateBurstTime st1.table p2.burst_time p2.command,
            remaining := st1.remaining - 1 }
        | some false =>
          { st1 with
            procs := st1.procs.set i (sjfError p1 ev.decision.tFin),
            remaining := st1.remaining - 1 }

/-- One outer iteration of `ShortestJobFirst` (lines 137-243): drain the
arrivals, then decide. -/
def onlineSjfStep (st : OnlineSJFState) : OnlineSJFState :=
  match st.events with
  | [] => st
  | ev :: rest =>
    onlineSjfDispatch (ev.arrivals.foldl sjfArrive1 { st with events := rest }) ev

/-- `ShortestJobFirst` (online_schedulers.h lines 116-244) as a
fuel-bounded iteration of `onlineSjfStep` from the empty state. -/
def ShortestJobFirst (fuel : Nat) (its : List SJFIteration) : OnlineSJFState :=
  iterateStep onlineSjfStep fuel
    { procs := [], table := emptyHashTable, remaining := 0, events := its }

/-- One outer iteration of the online `MultiLevelFeedbackQueue` loop: the
drained arrivals, the clock/fork/waitpid outcomes of the dispatch, and the
two clock readings of the boost check (lines 391 and 401). -/
structure OnlineMLFQIteration where
  arrivals : List (String × Nat)
  tRun : Nat
  forkResult : Int
  wait : WaitResult
  tBoostCheck : Nat
  tBoostSet : Nat
  deriving Repr, DecidableEq

/-- State of the online `MultiLevelFeedbackQueue` loop (lines 255-404).
The queues hold indices into `procs` (the C queues hold `Process*` to the
heap records). -/
structure OnlineMLFQState where
  procs : List Process
  queues : List (List Nat)
  table : HashTable
  remaining : Nat
  lastBoostTime : Nat
  boostTime : Nat
  quanta : List Nat
  events : List OnlineMLFQIteration
  deriving Repr, DecidableEq

/-- One arrival of the online MLFQ loop (lines 282-313): a fresh record is
appended and its index enqueued at the back of queue `getMLFQIndex`. -/
def onlineMlfqArrive1 (st : OnlineMLFQState) (cb : String × Nat) : OnlineMLFQState :=
  let p : Process := { command := cb.1, arrival_time := cb.2 }
  let index := getMLFQIndex st.quanta p st.table
  { st with
    procs := st.procs ++ [p],
    queues := st.queues.set index (st.queues.getD index [] ++ [st.procs.length]),
    remaining := st.remaining + 1 }

/-- The `for` scan of lines 320-325: the first non-empty queue in priority
order, its head, and the rest of that queue. -/
def firstNonEmptyQueue (qs : List (List Nat)) : Option (Nat × Nat × List Nat) :=
  match qs.getD 0 [] with
  | j :: q => some (0, j, q)
  | [] =>
    match qs.getD 1 [] with
    | j :: q => some (1, j, q)
    | [] =>
      match qs.getD 2 [] with
      | j :: q => some (2, j, q)
      | [] => none

/-- The boost check of lines 390-402: when at least `boostTime` ms have
passed since `lastBoostTime`, queues 1 and 2 are drained, in order, to the
back of queue 0 (the online variant stamps `lastBoostTime` after the
drain). -/
def onlineMlfqBoostCheck (st : OnlineMLFQState) (ev : OnlineMLFQIteration) : OnlineMLFQState :=
  if st.boostTime ≤ u64sub ev.tBoostCheck st.lastBoostTime then
    { st with queues := mlfqBoost st.queues, lastBoostTime := ev.tBoostSet }
  else st

/-- The dispatch part of one online-MLFQ iteration (lines 320-402), after
the arrivals have been drained: pick the head of the first non-empty queue
(the online loop has NO terminal-skip check), execute or resume it, poll;
on waitpid failure the record is dropped from the queues and the loop just
continues (no `break` in the online variant); still-running records are
paused and demoted; exited records are finalized (predictor updated only on
success) and `remainingProcesses` decremented.  The boost check runs at the
end of every dispatching iteration. -/
def onlineMlfqDispatch (st : OnlineMLFQState) (ev : OnlineMLFQIteration) : OnlineMLFQState :=
  if st.remaining = 0 then st
  else
    match firstNonEmptyQueue st.queues with
    | none => onlineMlfqBoostCheck st ev
    | some (i, j, q2) =>
      match st.procs[j]? with
      | none => st
      | some p =>
        let qs1 := st.queues.set i q2
        let p1 := if p.started = false then executeProcess p ev.tRun ev.forkResult
                  else resumeProcess p ev.tRun
        match ev.wait with
        | WaitResult.fail =>
          onlineMlfqBoostCheck { st with procs := st.procs.set j p1, queues := qs1 } ev
        | WaitResult.running tp =>
          let p2 := pauseProcess p1 tp
          let target := if i < 2 then i + 1 else i
          let qs2 := qs1.set target (qs1.getD target [] ++ [j])
          onlineMlfqBoostCheck { st with procs := st.procs.set j p2, queues := qs2 } ev
        | WaitResult.exited ok tf =>
          if ok then
            let p2 := rrFinish p1 tf
            onlineMlfqBoostCheck
              { st with
                procs := st.procs.set j p2, queues := qs1,
                table := updateBurstTime st.table p2.burst_time p2.command,
                remaining := st.remaining - 1 } ev
          else
            onlineMlfqBoostCheck
              { st with
                procs := st.procs.set j (rrError p1 tf), queues := qs1,
                remaining := st.remaining - 1 } ev

/-- One outer iteration of the online `MultiLevelFeedbackQueue`
(lines 278-403): drain the arrivals, then dispatch (whose leading
remaining-is-zero guard is the idle `continue` of line 318, which skips the
boost check). -/
def onlineMlfqStep (st : OnlineMLFQState) : OnlineMLFQState :=
  match st.events with
  | [] => st
  | ev :: rest =>
    onlineMlfqDispatch (ev.arrivals.foldl onlineMlfqArrive1 { st with events := rest }) ev

/-- Online `MultiLevelFeedbackQueue` (online_schedulers.h lines 255-404) as
a fuel-bounded iteration of `onlineMlfqStep` from the empty state. -/
def onlineMultiLevelFeedbackQueue (fuel q0 q1 q2 boostTime : Nat)
    (its : List OnlineMLFQIteration) : OnlineMLFQState :=
  iterateStep onlineMlfqStep fuel
    { procs := [], queues := [[], [], []], table := emptyHashTable, remaining := 0,
      lastBoostTime := 0, boostTime := boostTime, quanta := [q0, q1, q2], events := its }

/-- The concatenation of the three queues of indices, in priority order. -/
def qjoin (qs : List (List Nat)) : List Nat :=
  qs.getD 0 [] ++ qs.getD 1 [] ++ qs.getD 2 []

/-- A queue entry is valid when it points to an eligible record of the
table. -/
def validIdx (procs : List Process) (j : Nat) : Prop :=
  ∃ p, procs[j]? = some p ∧ eligible p

/-- The run invariant of the online MLFQ loop: the finished/error flags are
never both set, the queue triple keeps its shape, no index is queued twice,
and every queued index points to an eligible record (records becoming
terminal are dequeued and never re-enqueued, so the loop, which has no
terminal-skip check, still never dispatches a terminal record). -/
def onlineMlfqInv (st : OnlineMLFQState) : Prop :=
  (∀ p ∈ st.procs, ¬(p.finished = true ∧ p.error = true)) ∧
  st.queues.length = 3 ∧
  (qjoin st.queues).Nodup ∧
  (∀ j ∈ qjoin st.queues, validIdx st.procs j)

/-! ### Concrete sample inputs used by counterexamples and witnesses -/

/-- A started, unfinished record that has already been marked errored. -/
def erroredRecord : Process :=
  { command := "x", started := true, error := true, context_start_time := 2 }

/-- The single record of a one-iteration online-MLFQ run whose child exits
nonzero: errored, hence terminal. -/
def onlineErroredRecord : Process :=
  { command := "a", error := true, started := true, start_time := 1,
    context_start_time := 1, context_end_time := 3, response_time := 1,
    process_id := 5 }

/-- A started record mid-run with no accumulated burst yet. -/
def partialRecord : Process :=
  { command := "y", started := true, start_time := 1, context_start_time := 2 }

/-! ## Theorems -/

theorem W_pos : 0 < W := by unfold W; omega

theorem u64sub_of_le {a b : Nat} (hba : b ≤ a) (ha : a < W) : u64sub a b = a - b := by
  unfold u64sub
  have hb : b % W = b := Nat.mod_eq_of_lt (lt_of_le_of_lt hba ha)
  rw [hb]
  have hW : W = 18446744073709551616 := rfl
  have h1 : a + (W - b) = (a - b) + W := by omega
  rw [h1, Nat.add_mod_right]
  exact Nat.mod_eq_of_lt (by omega)

theorem u64sub_zero {a : Nat} (ha : a < W) : u64sub a 0 = a := by
  rw [u64sub_of_le (Nat.zero_le a) ha, Nat.sub_zero]

theorem u64add_of_lt {a b : Nat} (h : a + b < W) : u64add a b = a + b := by
  unfold u64add
  exact Nat.mod_eq_of_lt h

/-- The tokenizer returns no tokens on whitespace-only input. -/
theorem parseTokensLoop_whitespace :
    ∀ (l : List Char), (∀ c ∈ l, c = ' ' ∨ c = '\t') → parseTokensLoop l [] = [] := by
  intro l h
  induction l with
  | nil => rfl
  | cons c rest ih =>
    show parseTokensLoop (c :: rest) [] = []
    unfold parseTokensLoop
    rw [if_pos (h c (List.mem_cons_self c rest)), if_pos rfl]
    exact ih (fun d hd => h d (List.mem_cons_of_mem c hd))

/-- C9: counterexample.  The claim says `pauseProcess` and `resumeProcess`
are no-ops whenever the record has not started or is already terminal
(finished or errored).  On a started, unfinished record whose error flag is
set, both functions still mutate the record and reach their kill call,
because the guard tests only `started` and `finished`. -/
theorem pause_resume_not_noop_on_errored :
    pauseProcess erroredRecord 5 ≠ erroredRecord ∧
    resumeProcess erroredRecord 5 ≠ erroredRecord ∧
    pauseProcessSignals erroredRecord = true ∧
    resumeProcessSignals erroredRecord = true := by decide

/-- C9 (amended): `pauseProcess` and `resumeProcess` are no-ops - no field
changed, no signal sent - whenever the record has not started or is
finished; the errored-but-unfinished case is NOT covered by the guard. -/
theorem pause_resume_noop_when_unstarted_or_finished :
    ∀ (p : Process) (now : Nat),
      (p.started = false ∨ p.finished = true) →
      pauseProcess p now = p ∧ resumeProcess p now = p ∧
      pauseProcessSignals p = false ∧ resumeProcessSignals p = false := by
  intro p now h
  refine ⟨?_, ?_, ?_, ?_⟩
  · unfold pauseProcess; rw [if_pos h]
  · unfold resumeProcess; rw [if_pos h]
  · unfold pauseProcessSignals; rw [decide_eq_true h]; rfl
  · unfold resumeProcessSignals; rw [decide_eq_true h]; rfl

theorem pause_resume_noop_when_unstarted_or_finished_witness :
    pauseProcess { command := "w" } 9 = { command := "w" } ∧
    resumeProcess { command := "w" } 9 = { command := "w" } ∧
    pauseProcessSignals { command := "w" } = false ∧
    resumeProcessSignals { command := "w" } = false :=
  pause_resume_noop_when_unstarted_or_finished { command := "w" } 9 (Or.inl rfl)

/-- C5: counterexample.  The claim says that on the Running -> Error
transition every policy leaves the burst field at its previously
accumulated partial value; the FCFS and online-SJF error branches instead
overwrite it with the final slice length (here 0 becomes 4). -/
theorem error_overwrites_burst_in_fcfs_and_sjf :
    partialRecord.burst_time = 0 ∧
    (fcfsError partialRecord 6).burst_time = 4 ∧
    (sjfError partialRecord 6).burst_time = 4 := by decide

/-- C5 (amended): on Running -> Error every policy sets the error flag,
stamps context-end = now and finalizes response = start - arrival, leaving
turnaround, waiting, completion, the other flags and timestamps unchanged;
RoundRobin and both MLFQ variants also leave burst unchanged, while FCFS
and online SJF overwrite burst with context_end - context_start; and no
variant updates the BurstPredictor on error (the online SJF decision and
the online MLFQ terminal handler return the hash table unchanged). -/
theorem error_transition_effects :
    ∀ (p : Process) (now : Nat),
      ((rrError p now).error = true ∧
       (rrError p now).context_end_time = now ∧
       (rrError p now).response_time = u64sub p.start_time p.arrival_time ∧
       (rrError p now).burst_time = p.burst_time ∧
       (rrError p now).turnaround_time = p.turnaround_time ∧
       (rrError p now).waiting_time = p.waiting_time ∧
       (rrError p now).completion_time = p.completion_time ∧
       (rrError p now).finished = p.finished ∧
       (rrError p now).started = p.started ∧
       (rrError p now).start_time = p.start_time ∧
       (rrError p now).arrival_time = p.arrival_time) ∧
      ((fcfsError p now).error = true ∧
       (fcfsError p now).context_end_time = now ∧
       (fcfsError p now).response_time = u64sub p.start_time p.arrival_time ∧
       (fcfsError p now).burst_time = u64sub now p.context_start_time ∧
       (fcfsError p now).turnaround_time = p.turnaround_time ∧
       (fcfsError p now).waiting_time = p.waiting_time ∧
       (fcfsError p now).completion_time = p.completion_time ∧
       (fcfsError p now).finished = p.finished) ∧
      sjfError p now = fcfsError p now ∧
      (∀ tbl : HashTable, (onlineMlfqTerminal p false now tbl).2 = tbl) ∧
      (∀ (ps : List Process) (tbl : HashTable) (e : SJFEvent),
        e.wait = some false → (sjfDecision ps tbl e).2 = tbl) := by
  intro p now
  refine ⟨⟨rfl, rfl, rfl, rfl, rfl, rfl, rfl, rfl, rfl, rfl, rfl⟩,
          ⟨rfl, rfl, rfl, rfl, rfl, rfl, rfl, rfl⟩, rfl, fun tbl => rfl, ?_⟩
  intro ps tbl e hw
  unfold sjfDecision
  rcases hs : sjfSelect ps tbl with ⟨mi, mb⟩
  cases mi with
  | negSucc k => rfl
  | ofNat i =>
    cases hp : ps[i]? with
    | none => simp only [hp]
    | some q => simp only [hp, hw]

theorem error_transition_effects_witness :
    (rrError partialRecord 6).error = true ∧
    (sjfDecision [] emptyHashTable
      { tExec := 0, forkResult := 1, wait := some false, tFin := 1 }).2 =
      emptyHashTable :=
  ⟨(error_transition_effects partialRecord 6).1.1,
   (error_transition_effects partialRecord 6).2.2.2.2 [] emptyHashTable
     { tExec := 0, forkResult := 1, wait := some false, tFin := 1 } rfl⟩

/-- C8: counterexample.  For the empty command `parseCommand` does NOT
return NULL - it returns a non-null empty token vector - so the child does
not take the silent `exit(0)` path; it calls `execvp` with the NULL program
pointer of the empty vector, which fails under POSIX (`execReplaces =
false`), prints a diagnostic and exits 1, and the parent error branch then
marks the record Error, not Finished. -/
theorem empty_command_not_marked_finished :
    parseCommand "" = some [] ∧
    childExitCode "" false = some 1 ∧
    (fcfsBody { command := "" }
      { forkResult := 3, tExec := 0, wait := some false, tFin := 2 }).error = true ∧
    (fcfsBody { command := "" }
      { forkResult := 3, tExec := 0, wait := some false, tFin := 2 }).finished
      = false := by decide

/-- C8 (amended): an empty or whitespace-only command parses to a non-null
empty token vector; `execvp` on the empty vector fails (POSIX: NULL path),
so the child exits 1 and the parent marks the record Error.  The silent
exit(0) no-op path corresponds exactly to `parseCommand` returning NULL,
which happens only on allocation failure, never because of the command
text; in particular the child never exits 0 for such a command. -/
theorem whitespace_command_child_exits_error :
    ∀ (cmd : String), (∀ c ∈ cmd.data, c = ' ' ∨ c = '\t') →
      parseCommand cmd = some [] ∧
      childExitCode cmd false = some 1 ∧
      (∀ b : Bool, childExitCode cmd b ≠ some 0) := by
  intro cmd h
  have hp : parseCommand cmd = some [] := by
    unfold parseCommand
    rw [parseTokensLoop_whitespace cmd.data h]
  refine ⟨hp, ?_, ?_⟩
  · unfold childExitCode; rw [hp]; simp
  · intro b
    unfold childExitCode
    rw [hp]
    cases b <;> simp

theorem whitespace_command_child_exits_error_witness :
    parseCommand " " = some [] ∧
    childExitCode " " false = some 1 ∧
    (∀ b : Bool, childExitCode " " b ≠ some 0) :=
  whitespace_command_child_exits_error " " (by decide)

/-- C3: counterexample.  The claim says both MLFQ variants classify every
new arrival by predicted burst, with an unseen command going to tier 1.
The offline `MultiLevelFeedbackQueue` does no classification: it enqueues
every process into tier 0 at start, even though `getMLFQIndex` would place
this history-less command in tier 1. -/
theorem offline_mlfq_enqueues_all_in_tier0 :
    (mlfqInit [{ command := "job" }] [] 500).queues = [[0], [], []] ∧
    getMLFQIndex [10, 20, 40] { command := "job" } emptyHashTable = 1 := by decide

/-- C3 (amended): only the online MLFQ classifies arrivals, enqueueing the
new record into tier `getMLFQIndex`: 1 for a command with no history, 0
when the stored average burst is at most quantum0, 1 when it exceeds
quantum0 but is at most quantum1, else 2.  The offline MLFQ initially
enqueues every record into tier 0 regardless of history. -/
theorem mlfq_arrival_classification :
    (∀ (Q : List Nat) (tbl : HashTable) (p : Process),
      (findNode tbl p.command = none → getMLFQIndex Q p tbl = 1) ∧
      (∀ nd : HashTableNode, findNode tbl p.command = some nd →
        (nd.sum_burst_time / nd.num_bursts ≤ Q.getD 0 0 →
          getMLFQIndex Q p tbl = 0) ∧
        (¬ nd.sum_burst_time / nd.num_bursts ≤ Q.getD 0 0 →
          nd.sum_burst_time / nd.num_bursts ≤ Q.getD 1 0 →
          getMLFQIndex Q p tbl = 1) ∧
        (¬ nd.sum_burst_time / nd.num_bursts ≤ Q.getD 0 0 →
          ¬ nd.sum_burst_time / nd.num_bursts ≤ Q.getD 1 0 →
          getMLFQIndex Q p tbl = 2))) ∧
    (∀ (Q : List Nat) (tbl : HashTable) (qs : List (List Process))
        (cmd : String) (tArr : Nat),
      onlineMlfqArrival Q tbl qs cmd tArr =
        qs.set (getMLFQIndex Q { command := cmd, arrival_time := tArr } tbl)
          (qs.getD (getMLFQIndex Q { command := cmd, arrival_time := tArr } tbl) []
            ++ [{ command := cmd, arrival_time := tArr }])) ∧
    (∀ (ps : List Process) (es : List MLFQEvent) (bt : Nat),
      (mlfqInit ps es bt).queues = [List.range ps.length, [], []]) := by
  refine ⟨?_, fun Q tbl qs cmd tArr => rfl, fun ps es bt => rfl⟩
  intro Q tbl p
  constructor
  · intro hnone
    unfold getMLFQIndex
    rw [hnone]
  · intro nd hnd
    refine ⟨?_, ?_, ?_⟩
    · intro h0
      unfold getMLFQIndex
      rw [hnd]
      simp only [if_pos h0]
    · intro h0 h1
      unfold getMLFQIndex
      rw [hnd]
      simp only [if_neg h0, if_pos h1]
    · intro h0 h1
      unfold getMLFQIndex
      rw [hnd]
      simp only [if_neg h0, if_neg h1]

theorem mlfq_arrival_classification_witness :
    getMLFQIndex [10, 20, 40] { command := "nohist" } emptyHashTable = 1 :=
  (mlfq_arrival_classification.1 [10, 20, 40] emptyHashTable
    { command := "nohist" }).1 rfl

theorem updateBurstTime_length (tbl : HashTable) (b : Nat) (c : String) :
    (updateBurstTime tbl b c).length = tbl.length := by
  unfold updateBurstTime
  cases findNode tbl c <;> simp

theorem getD_set_self {α : Type} (l : List α) (i : Nat) (a d : α) (h : i < l.length) :
    (l.set i a).getD i d = a := by
  rw [List.getD_eq_getElem?_getD, List.getElem?_set_self h]
  rfl

theorem getD_set_ne {α : Type} (l : List α) (i j : Nat) (a d : α) (h : i ≠ j) :
    (l.set i a).getD j d = l.getD j d := by
  rw [List.getD_eq_getElem?_getD, List.getElem?_set_ne h, ← List.getD_eq_getElem?_getD]

/-- Updating the node for `c` in a bucket maps the lookup result for `c`. -/
theorem find?_updateNodeList_self (cell : List HashTableNode) (c : String) (b : Nat) :
    (updateNodeList cell c b).find? (fun nd => nd.command == c) =
      (cell.find? (fun nd => nd.command == c)).map
        (fun nd => { nd with
          sum_burst_time := nd.sum_burst_time + b,
          num_bursts := nd.num_bursts + 1 }) := by
  induction cell with
  | nil => rfl
  | cons nd rest ih =>
    show (if nd.command == c then _ else _ : List HashTableNode).find? _ = _
    cases h : (nd.command == c) with
    | true =>
      rw [if_pos rfl]
      rw [List.find?_cons_of_pos _ (by simpa using h),
          List.find?_cons_of_pos _ (by simpa using h)]
      rfl
    | false =>
      rw [if_neg (by simp)]
      rw [List.find?_cons_of_neg _ (by simp [h]),
          List.find?_cons_of_neg _ (by simp [h])]
      exact ih

/-- Updating the node for `c` leaves the lookup result for a different
command unchanged. -/
theorem find?_updateNodeList_other (cell : List HashTableNode) (c cmd : String)
    (b : Nat) (h : cmd ≠ c) :
    (updateNodeList cell c b).find? (fun nd => nd.command == cmd) =
      cell.find? (fun nd => nd.command == cmd) := by
  induction cell with
  | nil => rfl
  | cons nd rest ih =>
    show (if nd.command == c then _ else _ : List HashTableNode).find? _ = _
    cases hc : (nd.command == c) with
    | true =>
      rw [if_pos rfl]
      have hne : ¬ nd.command = cmd := by
        have hcc : nd.command = c := by simpa using hc
        rw [hcc]
        exact fun hh => h hh.symm
      rw [List.find?_cons_of_neg _ (by simpa using hne),
          List.find?_cons_of_neg _ (by simpa using hne)]
    | false =>
      rw [if_neg (by simp)]
      cases hm : (nd.command == cmd) with
      | true =>
        rw [List.find?_cons_of_pos _ (by simpa using hm),
            List.find?_cons_of_pos _ (by simpa using hm)]
      | false =>
        rw [List.find?_cons_of_neg _ (by simp [hm]),
            List.find?_cons_of_neg _ (by simp [hm])]
        exact ih

/-- One `updateBurstTime` step, seen through `findNode`. -/
theorem findNode_updateBurstTime (tbl : HashTable) (b : Nat) (c cmd : String)
    (hlen : tbl.length = 3) :
    findNode (updateBurstTime tbl b c) cmd =
      (if c = cmd then
        match findNode tbl cmd with
        | none => some { command := cmd, sum_burst_time := b, num_bursts := 1 }
        | some nd => some { nd with
            sum_burst_time := nd.sum_burst_time + b,
            num_bursts := nd.num_bursts + 1 }
      else findNode tbl cmd) := by
  have hidxc : hashFunction c % NUM_CELLS < tbl.length := by
    rw [hlen]; exact Nat.mod_lt _ (by decide)
  by_cases hceq : c = cmd
  · subst hceq
    rw [if_pos rfl]
    unfold updateBurstTime
    cases hf : findNode tbl c with
    | none =>
      simp only [hf]
      unfold findNode
      rw [getD_set_self _ _ _ _ hidxc]
      rw [List.find?_cons_of_pos _ (by simp)]
    | some nd =>
      simp only [hf]
      unfold findNode
      rw [getD_set_self _ _ _ _ hidxc]
      rw [find?_updateNodeList_self]
      have : (tbl.getD (hashFunction c % NUM_CELLS) []).find?
          (fun nd => nd.command == c) = some nd := hf
      rw [this]
      rfl
  · rw [if_neg hceq]
    by_cases hbkt : hashFunction c % NUM_CELLS = hashFunction cmd % NUM_CELLS
    · unfold updateBurstTime
      cases hf : findNode tbl c with
      | none =>
        simp only [hf]
        unfold findNode
        rw [hbkt, getD_set_self _ _ _ _ (by rw [← hbkt]; exact hidxc)]
        rw [List.find?_cons_of_neg _ (by
          simp only [beq_iff_eq]
          exact fun hh => hceq hh)]
      | some nd =>
        simp only [hf]
        unfold findNode
        rw [hbkt, getD_set_self _ _ _ _ (by rw [← hbkt]; exact hidxc)]
        rw [find?_updateNodeList_other _ _ _ _ (fun hh => hceq hh.symm)]
    · unfold updateBurstTime
      cases hf : findNode tbl c with
      | none =>
        simp only [hf]
        unfold findNode
        rw [getD_set_ne _ _ _ _ _ hbkt]
      | some nd =>
        simp only [hf]
        unfold findNode
        rw [getD_set_ne _ _ _ _ _ hbkt]

theorem findNode_emptyHashTable (cmd : String) :
    findNode emptyHashTable cmd = none := by
  unfold findNode
  have : emptyHashTable.getD (hashFunction cmd % NUM_CELLS) [] = [] := by
    have h3 : hashFunction cmd % NUM_CELLS < 3 := Nat.mod_lt _ (by decide)
    interval_cases h : (hashFunction cmd % NUM_CELLS) <;> rfl
  rw [this]
  rfl

/-- Folding a history over the table commutes with `applyUpdates` on the
lookup result. -/
theorem findNode_predictor_fold (l : List (String × Nat)) :
    ∀ (tbl : HashTable) (cmd : String), tbl.length = 3 →
      findNode (l.foldl (fun t cb => updateBurstTime t cb.2 cb.1) tbl) cmd =
        applyUpdates l cmd (findNode tbl cmd) := by
  induction l with
  | nil => intro tbl cmd _; rfl
  | cons cb rest ih =>
    intro tbl cmd hlen
    show findNode (rest.foldl _ (updateBurstTime tbl cb.2 cb.1)) cmd = _
    rw [ih (updateBurstTime tbl cb.2 cb.1) cmd
      (by rw [updateBurstTime_length, hlen])]
    show _ = applyUpdates rest cmd _
    rw [findNode_updateBurstTime tbl cb.2 cb.1 cmd hlen]

theorem sumFor_cons_pos {cb : String × Nat} {l : List (String × Nat)} {cmd : String}
    (h : cb.1 = cmd) : sumFor (cb :: l) cmd = cb.2 + sumFor l cmd := by
  unfold sumFor
  rw [List.filter_cons_of_pos (by simpa using h)]
  simp

theorem sumFor_cons_neg {cb : String × Nat} {l : List (String × Nat)} {cmd : String}
    (h : ¬ cb.1 = cmd) : sumFor (cb :: l) cmd = sumFor l cmd := by
  unfold sumFor
  rw [List.filter_cons_of_neg (by simpa using h)]

theorem cntFor_cons_pos {cb : String × Nat} {l : List (String × Nat)} {cmd : String}
    (h : cb.1 = cmd) : cntFor (cb :: l) cmd = cntFor l cmd + 1 := by
  unfold cntFor
  rw [List.filter_cons_of_pos (by simpa using h)]
  rfl

theorem cntFor_cons_neg {cb : String × Nat} {l : List (String × Nat)} {cmd : String}
    (h : ¬ cb.1 = cmd) : cntFor (cb :: l) cmd = cntFor l cmd := by
  unfold cntFor
  rw [List.filter_cons_of_neg (by simpa using h)]

theorem applyUpdates_some (l : List (String × Nat)) :
    ∀ (cmd : String) (s n : Nat),
      applyUpdates l cmd (some { command := cmd, sum_burst_time := s, num_bursts := n }) =
        some { command := cmd, sum_burst_time := s + sumFor l cmd,
               num_bursts := n + cntFor l cmd } := by
  induction l with
  | nil =>
    intro cmd s n
    simp [applyUpdates, sumFor, cntFor]
  | cons cb rest ih =>
    intro cmd s n
    by_cases h : cb.1 = cmd
    · show applyUpdates rest cmd _ = _
      rw [if_pos h]
      show applyUpdates rest cmd
        (some { command := cmd, sum_burst_time := s + cb.2, num_bursts := n + 1 }) = _
      rw [ih]
      rw [sumFor_cons_pos h, cntFor_cons_pos h]
      have hcongr : ∀ (s1 s2 n1 n2 : Nat), s1 = s2 → n1 = n2 →
          (some { command := cmd, sum_burst_time := s1, num_bursts := n1 } :
            Option HashTableNode) =
          some { command := cmd, sum_burst_time := s2, num_bursts := n2 } := by
        intro s1 s2 n1 n2 hs hn
        rw [hs, hn]
      exact hcongr _ _ _ _ (by omega) (by omega)
    · show applyUpdates rest cmd _ = _
      rw [if_neg h]
      rw [ih, sumFor_cons_neg h, cntFor_cons_neg h]

theorem applyUpdates_none (l : List (String × Nat)) :
    ∀ cmd : String,
      applyUpdates l cmd none =
        if cntFor l cmd = 0 then none
        else some { command := cmd, sum_burst_time := sumFor l cmd,
                    num_bursts := cntFor l cmd } := by
  induction l with
  | nil =>
    intro cmd
    simp [applyUpdates, cntFor]
  | cons cb rest ih =>
    intro cmd
    by_cases h : cb.1 = cmd
    · show applyUpdates rest cmd _ = _
      rw [if_pos h]
      show applyUpdates rest cmd
        (some { command := cmd, sum_burst_time := cb.2, num_bursts := 1 }) = _
      rw [applyUpdates_some]
      rw [if_neg (by rw [cntFor_cons_pos h]; omega)]
      rw [sumFor_cons_pos h, cntFor_cons_pos h]
      have hcongr : ∀ (s1 s2 n1 n2 : Nat), s1 = s2 → n1 = n2 →
          (some { command := cmd, sum_burst_time := s1, num_bursts := n1 } :
            Option HashTableNode) =
          some { command := cmd, sum_burst_time := s2, num_bursts := n2 } := by
        intro s1 s2 n1 n2 hs hn
        rw [hs, hn]
      exact hcongr _ _ _ _ (by omega) (by omega)
    · show applyUpdates rest cmd _ = _
      rw [if_neg h]
      rw [ih, sumFor_cons_neg h, cntFor_cons_neg h]

/-- C2: BurstPredictor behaviour.  Over any history `l` of successful
completions applied to the empty table: an entry for a command exists iff
the command completed at least once; the estimate is the SJF default 1000
with no entry, and the truncated quotient (sum of bursts) / (count)
otherwise; in particular one completion with burst b estimates b, and two
completions b1, b2 estimate (b1 + b2) / 2 truncated. -/
theorem burst_predictor_sum_count :
    ∀ (l : List (String × Nat)) (p : Process),
      (findNode (predictorTable l) p.command = none ↔ cntFor l p.command = 0) ∧
      (cntFor l p.command = 0 → getExpectedBurstTime (predictorTable l) p = 1000) ∧
      (cntFor l p.command ≠ 0 →
        getExpectedBurstTime (predictorTable l) p =
          sumFor l p.command / cntFor l p.command) ∧
      (∀ b : Nat, l = [(p.command, b)] →
        getExpectedBurstTime (predictorTable l) p = b) ∧
      (∀ b1 b2 : Nat, l = [(p.command, b1), (p.command, b2)] →
        getExpectedBurstTime (predictorTable l) p = (b1 + b2) / 2) := by
  have key : ∀ (l : List (String × Nat)) (cmd : String),
      findNode (predictorTable l) cmd =
        if cntFor l cmd = 0 then none
        else some { command := cmd, sum_burst_time := sumFor l cmd,
                    num_bursts := cntFor l cmd } := by
    intro l cmd
    unfold predictorTable
    rw [findNode_predictor_fold l emptyHashTable cmd rfl,
        findNode_emptyHashTable, applyUpdates_none]
  intro l p
  refine ⟨?_, ?_, ?_, ?_, ?_⟩
  · rw [key]
    constructor
    · intro h
      by_contra hc
      rw [if_neg hc] at h
      exact Option.noConfusion h
    · intro h
      rw [if_pos h]
  · intro h
    unfold getExpectedBurstTime
    rw [key, if_pos h]
  · intro h
    unfold getExpectedBurstTime
    rw [key, if_neg h]
  · intro b hl
    subst hl
    unfold getExpectedBurstTime
    rw [key]
    have hc : cntFor [(p.command, b)] p.command = 1 := by
      rw [cntFor_cons_pos rfl]; rfl
    have hs : sumFor [(p.command, b)] p.command = b := by
      rw [sumFor_cons_pos rfl]
      simp [sumFor]
    rw [if_neg (by omega), hc, hs]
    simp
  · intro b1 b2 hl
    subst hl
    unfold getExpectedBurstTime
    rw [key]
    have hc : cntFor [(p.command, b1), (p.command, b2)] p.command = 2 := by
      rw [cntFor_cons_pos rfl, cntFor_cons_pos rfl]; rfl
    have hs : sumFor [(p.command, b1), (p.command, b2)] p.command = b1 + b2 := by
      rw [sumFor_cons_pos rfl, sumFor_cons_pos rfl]
      simp [sumFor, Nat.add_assoc]
    rw [if_neg (by omega), hc, hs]

theorem burst_predictor_sum_count_witness :
    getExpectedBurstTime (predictorTable [("a", 5), ("a", 8)]) { command := "a" } = 6 := by
  have h := (burst_predictor_sum_count [("a", 5), ("a", 8)]
    { command := "a" }).2.2.2.2 5 8 rfl
  simpa using h

/-- Full characterization of the SJF selection scan: starting from the
accumulator `(mi, mb)`, the scan either returns the accumulator unchanged
(and every eligible record of the list has estimate at least `mb`), or it
returns `(i + k, estimate of record k)` for the first eligible record `k`
realizing the strict minimum below `mb`. -/
theorem sjfScan_characterization (tbl : HashTable) :
    ∀ (ps : List Process) (i : Nat) (mi : Int) (mb : Nat),
      (sjfScan ps tbl i (mi, mb) = (mi, mb) ∧
        ∀ (k : Nat) (hk : k < ps.length), eligible (ps.get ⟨k, hk⟩) →
          mb ≤ getExpectedBurstTime tbl (ps.get ⟨k, hk⟩)) ∨
      (∃ (k : Nat) (hk : k < ps.length),
        eligible (ps.get ⟨k, hk⟩) ∧
        getExpectedBurstTime tbl (ps.get ⟨k, hk⟩) < mb ∧
        sjfScan ps tbl i (mi, mb) =
          (Int.ofNat (i + k), getExpectedBurstTime tbl (ps.get ⟨k, hk⟩)) ∧
        (∀ (j : Nat) (hj : j < ps.length), j < k → eligible (ps.get ⟨j, hj⟩) →
          getExpectedBurstTime tbl (ps.get ⟨k, hk⟩) <
            getExpectedBurstTime tbl (ps.get ⟨j, hj⟩)) ∧
        (∀ (j : Nat) (hj : j < ps.length), eligible (ps.get ⟨j, hj⟩) →
          getExpectedBurstTime tbl (ps.get ⟨k, hk⟩) ≤
            getExpectedBurstTime tbl (ps.get ⟨j, hj⟩))) := by
  intro ps
  induction ps with
  | nil =>
    intro i mi mb
    left
    exact ⟨rfl, fun k hk _ => absurd hk (Nat.not_lt_zero k)⟩
  | cons p rest ih =>
    intro i mi mb
    have hstep : sjfScan (p :: rest) tbl i (mi, mb) =
        if (p.finished || p.error) = true then sjfScan rest tbl (i + 1) (mi, mb)
        else if getExpectedBurstTime tbl p < mb then
          sjfScan rest tbl (i + 1) (Int.ofNat i, getExpectedBurstTime tbl p)
        else sjfScan rest tbl (i + 1) (mi, mb) := rfl
    by_cases hel : (p.finished || p.error) = true
    · -- head is terminal: skipped
      rw [if_pos hel] at hstep
      rcases ih (i + 1) mi mb with ⟨heq, hmin⟩ | ⟨k, hk, hkel, hklt, heq, hbef, hglob⟩
      · left
        refine ⟨by rw [hstep, heq], ?_⟩
        intro k hk hkel
        cases k with
        | zero =>
          exact absurd hel (by simpa [eligible] using hkel)
        | succ k2 =>
          exact hmin k2 (Nat.lt_of_succ_lt_succ hk) hkel
      · right
        refine ⟨k + 1, Nat.succ_lt_succ hk, hkel, hklt, ?_, ?_, ?_⟩
        · rw [hstep, heq]
          rw [show i + 1 + k = i + (k + 1) from by omega]
          rfl
        · intro j hj hjk hjel
          cases j with
          | zero => exact absurd hel (by simpa [eligible] using hjel)
          | succ j2 =>
            exact hbef j2 (Nat.lt_of_succ_lt_succ hj) (Nat.lt_of_succ_lt_succ hjk) hjel
        · intro j hj hjel
          cases j with
          | zero => exact absurd hel (by simpa [eligible] using hjel)
          | succ j2 => exact hglob j2 (Nat.lt_of_succ_lt_succ hj) hjel
    · -- head is eligible
      rw [if_neg hel] at hstep
      have helig : eligible p := by simpa [eligible] using hel
      by_cases hlt : getExpectedBurstTime tbl p < mb
      · rw [if_pos hlt] at hstep
        rcases ih (i + 1) (Int.ofNat i) (getExpectedBurstTime tbl p) with
          ⟨heq, hmin⟩ | ⟨k, hk, hkel, hklt, heq, hbef, hglob⟩
        · -- nothing in the tail beats the head
          right
          refine ⟨0, Nat.succ_pos _, helig, hlt, ?_, ?_, ?_⟩
          · rw [hstep, heq]
            rw [show i + 0 = i from by omega]
            rfl
          · intro j hj hjk _
            exact absurd hjk (Nat.not_lt_zero j)
          · intro j hj hjel
            cases j with
            | zero => exact Nat.le_refl _
            | succ j2 => exact hmin j2 (Nat.lt_of_succ_lt_succ hj) hjel
        · -- something in the tail beats the head
          right
          refine ⟨k + 1, Nat.succ_lt_succ hk, hkel, Nat.lt_trans hklt hlt, ?_, ?_, ?_⟩
          · rw [hstep, heq]
            rw [show i + 1 + k = i + (k + 1) from by omega]
            rfl
          · intro j hj hjk hjel
            cases j with
            | zero => exact hklt
            | succ j2 =>
              exact hbef j2 (Nat.lt_of_succ_lt_succ hj) (Nat.lt_of_succ_lt_succ hjk) hjel
          · intro j hj hjel
            cases j with
            | zero => exact Nat.le_of_lt hklt
            | succ j2 => exact hglob j2 (Nat.lt_of_succ_lt_succ hj) hjel
      · -- head eligible but not below the accumulator minimum
        rw [if_neg hlt] at hstep
        have hge : mb ≤ getExpectedBurstTime tbl p := Nat.le_of_not_lt hlt
        rcases ih (i + 1) mi mb with ⟨heq, hmin⟩ | ⟨k, hk, hkel, hklt, heq, hbef, hglob⟩
        · left
          refine ⟨by rw [hstep, heq], ?_⟩
          intro k hk hkel
          cases k with
          | zero => exact hge
          | succ k2 => exact hmin k2 (Nat.lt_of_succ_lt_succ hk) hkel
        · right
          refine ⟨k + 1, Nat.succ_lt_succ hk, hkel, hklt, ?_, ?_, ?_⟩
          · rw [hstep, heq]
            rw [show i + 1 + k = i + (k + 1) from by omega]
            rfl
          · intro j hj hjk hjel
            cases j with
            | zero => exact Nat.lt_of_lt_of_le hklt hge
            | succ j2 =>
              exact hbef j2 (Nat.lt_of_succ_lt_succ hj) (Nat.lt_of_succ_lt_succ hjk) hjel
          · intro j hj hjel
            cases j with
            | zero => exact Nat.le_of_lt (Nat.lt_of_lt_of_le hklt hge)
            | succ j2 => exact hglob j2 (Nat.lt_of_succ_lt_succ hj) hjel

/-- C4: at each decision point the online SJF scheduler selects, among all
records that are neither finished nor errored, the one with the minimum
BurstPredictor estimate, ties broken in favour of the smallest index, and
the decision step then runs exactly that record to completion with one
blocking wait - no other record is touched before the next decision.
(The hypothesis that some eligible record has estimate below 10^9 reflects
the sentinel `minBurstTime = 1e9` the scan starts from; the default
estimate 1000 always satisfies it.) -/
theorem sjf_selects_minimum_estimate :
    ∀ (ps : List Process) (tbl : HashTable),
      (∃ (k : Nat) (hk : k < ps.length),
        eligible (ps.get ⟨k, hk⟩) ∧
        getExpectedBurstTime tbl (ps.get ⟨k, hk⟩) < 1000000000) →
      ∃ (j : Nat) (hj : j < ps.length),
        sjfSelect ps tbl =
          (Int.ofNat j, getExpectedBurstTime tbl (ps.get ⟨j, hj⟩)) ∧
        eligible (ps.get ⟨j, hj⟩) ∧
        (∀ (k : Nat) (hk : k < ps.length), eligible (ps.get ⟨k, hk⟩) →
          getExpectedBurstTime tbl (ps.get ⟨j, hj⟩) ≤
            getExpectedBurstTime tbl (ps.get ⟨k, hk⟩)) ∧
        (∀ (k : Nat) (hk : k < ps.length), k < j → eligible (ps.get ⟨k, hk⟩) →
          getExpectedBurstTime tbl (ps.get ⟨j, hj⟩) <
            getExpectedBurstTime tbl (ps.get ⟨k, hk⟩)) ∧
        (∀ (e : SJFEvent) (k : Nat), k ≠ j →
          ((sjfDecision ps tbl e).1)[k]? = ps[k]?) := by
  intro ps tbl hex
  rcases sjfScan_characterization tbl ps 0 (-1) 1000000000 with
    ⟨_, hmin⟩ | ⟨k, hk, hkel, hklt, heq, hbef, hglob⟩
  · rcases hex with ⟨k, hk, hkel, hklt⟩
    exact absurd (hmin k hk hkel) (Nat.not_le_of_lt hklt)
  · have hsel : sjfSelect ps tbl =
        (Int.ofNat k, getExpectedBurstTime tbl (ps.get ⟨k, hk⟩)) := by
      show sjfScan ps tbl 0 (-1, 1000000000) = _
      rw [heq]
      rw [show 0 + k = k from by omega]
    refine ⟨k, hk, hsel, hkel, hglob, hbef, ?_⟩
    intro e k2 hne
    unfold sjfDecision
    rw [hsel]
    have hgetk : ps[k]? = some (ps.get ⟨k, hk⟩) := List.getElem?_eq_getElem hk
    cases hw : e.wait with
    | none =>
      simp only [hgetk, hw]
      exact List.getElem?_set_ne (fun hh => hne hh.symm)
    | some ok =>
      cases ok with
      | true =>
        simp only [hgetk, hw]
        exact List.getElem?_set_ne (fun hh => hne hh.symm)
      | false =>
        simp only [hgetk, hw]
        exact List.getElem?_set_ne (fun hh => hne hh.symm)

theorem sjf_selects_minimum_estimate_witness :
    ∃ (j : Nat) (hj : j < ([{ command := "a" }, { command := "b" }] : List Process).length),
      sjfSelect [{ command := "a" }, { command := "b" }] emptyHashTable =
        (Int.ofNat j, getExpectedBurstTime emptyHashTable
          (([{ command := "a" }, { command := "b" }] : List Process).get ⟨j, hj⟩)) ∧
      eligible (([{ command := "a" }, { command := "b" }] : List Process).get ⟨j, hj⟩) ∧
      (∀ (k : Nat) (hk : k < ([{ command := "a" }, { command := "b" }] : List Process).length),
        eligible (([{ command := "a" }, { command := "b" }] : List Process).get ⟨k, hk⟩) →
        getExpectedBurstTime emptyHashTable
            (([{ command := "a" }, { command := "b" }] : List Process).get ⟨j, hj⟩) ≤
          getExpectedBurstTime emptyHashTable
            (([{ command := "a" }, { command := "b" }] : List Process).get ⟨k, hk⟩)) ∧
      (∀ (k : Nat) (hk : k < ([{ command := "a" }, { command := "b" }] : List Process).length),
        k < j →
        eligible (([{ command := "a" }, { command := "b" }] : List Process).get ⟨k, hk⟩) →
        getExpectedBurstTime emptyHashTable
            (([{ command := "a" }, { command := "b" }] : List Process).get ⟨j, hj⟩) <
          getExpectedBurstTime emptyHashTable
            (([{ command := "a" }, { command := "b" }] : List Process).get ⟨k, hk⟩)) ∧
      (∀ (e : SJFEvent) (k : Nat), k ≠ j →
        ((sjfDecision [{ command := "a" }, { command := "b" }] emptyHashTable e).1)[k]? =
          ([{ command := "a" }, { command := "b" }] : List Process)[k]?) :=
  sjf_selects_minimum_estimate [{ command := "a" }, { command := "b" }] emptyHashTable
    ⟨0, by decide, by
      constructor
      · rfl
      · show getExpectedBurstTime emptyHashTable { command := "a" } < 1000000000
        decide⟩

theorem executeProcess_flags (p : Process) (t : Nat) (f : Int) :
    (executeProcess p t f).finished = p.finished ∧
    (executeProcess p t f).error = p.error := by
  unfold executeProcess
  split <;> exact ⟨rfl, rfl⟩

theorem resumeProcess_flags (p : Process) (t : Nat) :
    (resumeProcess p t).finished = p.finished ∧
    (resumeProcess p t).error = p.error := by
  unfold resumeProcess
  split <;> exact ⟨rfl, rfl⟩

theorem pauseProcess_flags (p : Process) (t : Nat) :
    (pauseProcess p t).finished = p.finished ∧
    (pauseProcess p t).error = p.error := by
  unfold pauseProcess
  split <;> exact ⟨rfl, rfl⟩

theorem eligible_executeProcess {p : Process} (t : Nat) (f : Int) (h : eligible p) :
    eligible (executeProcess p t f) := by
  unfold eligible at *
  rcases executeProcess_flags p t f with ⟨h1, h2⟩
  rw [h1, h2]
  exact h

theorem eligible_resumeProcess {p : Process} (t : Nat) (h : eligible p) :
    eligible (resumeProcess p t) := by
  unfold eligible at *
  rcases resumeProcess_flags p t with ⟨h1, h2⟩
  rw [h1, h2]
  exact h

/-- Case analysis of one RoundRobin step: either the process table and event
supply are untouched, or the loop dispatched the eligible record at the
cursor, consumed the head event, and replaced exactly that record by the
outcome of execute-or-resume followed by the poll branch. -/
theorem rrStep_cases (s : RRState) :
    ((rrStep s).procs = s.procs ∧ (rrStep s).events = s.events) ∨
    (∃ (p : Process) (e : RREvent) (rest : List RREvent) (q : Process),
      s.procs[s.i]? = some p ∧ eligible p ∧ s.events = e :: rest ∧
      (rrStep s).events = rest ∧ (rrStep s).procs = s.procs.set s.i q ∧
      (∃ p1 : Process,
        ((p.started = false ∧ p1 = executeProcess p e.tRun e.forkResult) ∨
         (¬ p.started = false ∧ p1 = resumeProcess p e.tRun)) ∧
        ((e.wait = WaitResult.fail ∧ q = p1) ∨
         (∃ tp, e.wait = WaitResult.running tp ∧ q = pauseProcess p1 tp) ∨
         (∃ tf, e.wait = WaitResult.exited true tf ∧ q = rrFinish p1 tf) ∨
         (∃ tf, e.wait = WaitResult.exited false tf ∧ q = rrError p1 tf)))) := by
  unfold rrStep
  split
  · left
    exact ⟨rfl, rfl⟩
  split
  · left
    exact ⟨rfl, rfl⟩
  split
  · left
    exact ⟨rfl, rfl⟩
  next p hp =>
    split
    · left
      exact ⟨rfl, rfl⟩
    next hterm =>
      have hel : eligible p := by
        unfold eligible
        simpa using hterm
      split
      · left
        exact ⟨rfl, rfl⟩
      next e rest hev =>
        split
        · next hst =>
          split
          · next hw =>
            right
            exact ⟨p, e, rest, executeProcess p e.tRun e.forkResult, hp, hel, hev,
              rfl, rfl, executeProcess p e.tRun e.forkResult,
              Or.inl ⟨hst, rfl⟩, Or.inl ⟨hw, rfl⟩⟩
          · next tp hw =>
            right
            exact ⟨p, e, rest, pauseProcess (executeProcess p e.tRun e.forkResult) tp,
              hp, hel, hev, rfl, rfl, executeProcess p e.tRun e.forkResult,
              Or.inl ⟨hst, rfl⟩, Or.inr (Or.inl ⟨tp, hw, rfl⟩)⟩
          · next ok tf hw =>
            cases ok with
            | true =>
              right
              exact ⟨p, e, rest, rrFinish (executeProcess p e.tRun e.forkResult) tf,
                hp, hel, hev, rfl, rfl, executeProcess p e.tRun e.forkResult,
                Or.inl ⟨hst, rfl⟩, Or.inr (Or.inr (Or.inl ⟨tf, hw, rfl⟩))⟩
            | false =>
              right
              exact ⟨p, e, rest, rrError (executeProcess p e.tRun e.forkResult) tf,
                hp, hel, hev, rfl, rfl, executeProcess p e.tRun e.forkResult,
                Or.inl ⟨hst, rfl⟩, Or.inr (Or.inr (Or.inr ⟨tf, hw, rfl⟩))⟩
        · next hst =>
          split
          · next hw =>
            right
            exact ⟨p, e, rest, resumeProcess p e.tRun, hp, hel, hev,
              rfl, rfl, resumeProcess p e.tRun,
              Or.inr ⟨hst, rfl⟩, Or.inl ⟨hw, rfl⟩⟩
          · next tp hw =>
            right
            exact ⟨p, e, rest, pauseProcess (resumeProcess p e.tRun) tp,
              hp, hel, hev, rfl, rfl, resumeProcess p e.tRun,
              Or.inr ⟨hst, rfl⟩, Or.inr (Or.inl ⟨tp, hw, rfl⟩)⟩
          · next ok tf hw =>
            cases ok with
            | true =>
              right
              exact ⟨p, e, rest, rrFinish (resumeProcess p e.tRun) tf,
                hp, hel, hev, rfl, rfl, resumeProcess p e.tRun,
                Or.inr ⟨hst, rfl⟩, Or.inr (Or.inr (Or.inl ⟨tf, hw, rfl⟩))⟩
            | false =>
              right
              exact ⟨p, e, rest, rrError (resumeProcess p e.tRun) tf,
                hp, hel, hev, rfl, rfl, resumeProcess p e.tRun,
                Or.inr ⟨hst, rfl⟩, Or.inr (Or.inr (Or.inr ⟨tf, hw, rfl⟩))⟩

theorem mlfqMaybeBoost_procs (s : MLFQState) (e : MLFQEvent) :
    (mlfqMaybeBoost s e).procs = s.procs := by
  unfold mlfqMaybeBoost
  split <;> rfl

theorem mlfqMaybeBoost_events (s : MLFQState) (e : MLFQEvent) :
    (mlfqMaybeBoost s e).events = s.events := by
  unfold mlfqMaybeBoost
  split <;> rfl

/-- Case analysis of one offline-MLFQ step: either the process table and
event supply are untouched, or the loop dequeued an eligible record index,
consumed the head event, and replaced exactly that record by the outcome of
execute-or-resume followed by the poll branch (the boost only moves queue
entries, never process records). -/
theorem mlfqStep_cases (s : MLFQState) :
    ((mlfqStep s).procs = s.procs ∧ (mlfqStep s).events = s.events) ∨
    (∃ (j : Nat) (p : Process) (e : MLFQEvent) (rest : List MLFQEvent) (q : Process),
      s.procs[j]? = some p ∧ eligible p ∧ s.events = e :: rest ∧
      (mlfqStep s).events = rest ∧ (mlfqStep s).procs = s.procs.set j q ∧
      (∃ p1 : Process,
        ((p.started = false ∧ p1 = executeProcess p e.tRun e.forkResult) ∨
         (¬ p.started = false ∧ p1 = resumeProcess p e.tRun)) ∧
        ((e.wait = WaitResult.fail ∧ q = p1) ∨
         (∃ tp, e.wait = WaitResult.running tp ∧ q = pauseProcess p1 tp) ∨
         (∃ tf, e.wait = WaitResult.exited true tf ∧ q = rrFinish p1 tf) ∨
         (∃ tf, e.wait = WaitResult.exited false tf ∧ q = rrError p1 tf)))) := by
  unfold mlfqStep
  split
  · left
    exact ⟨rfl, rfl⟩
  split
  · left
    exact ⟨rfl, rfl⟩
  split
  · left
    exact ⟨rfl, rfl⟩
  next j q0 hq0 =>
    split
    · left
      exact ⟨rfl, rfl⟩
    next p hp =>
      split
      · left
        exact ⟨rfl, rfl⟩
      next hterm =>
        have hel : eligible p := by
          unfold eligible
          simpa using hterm
        split
        · left
          exact ⟨rfl, rfl⟩
        next e rest hev =>
          split
          · next hst =>
            split
            · next hw =>
              right
              exact ⟨j, p, e, rest, executeProcess p e.tRun e.forkResult, hp, hel,
                hev, rfl, rfl, executeProcess p e.tRun e.forkResult,
                Or.inl ⟨hst, rfl⟩, Or.inl ⟨hw, rfl⟩⟩
            · next tp hw =>
              right
              refine ⟨j, p, e, rest,
                pauseProcess (executeProcess p e.tRun e.forkResult) tp, hp, hel,
                hev, ?_, ?_, executeProcess p e.tRun e.forkResult,
                Or.inl ⟨hst, rfl⟩, Or.inr (Or.inl ⟨tp, hw, rfl⟩)⟩
              · simp only [mlfqMaybeBoost_events]
              · simp only [mlfqMaybeBoost_procs]
            · next ok tf hw =>
              cases ok with
              | true =>
                right
                refine ⟨j, p, e, rest,
                  rrFinish (executeProcess p e.tRun e.forkResult) tf, hp, hel,
                  hev, ?_, ?_, executeProcess p e.tRun e.forkResult,
                  Or.inl ⟨hst, rfl⟩, Or.inr (Or.inr (Or.inl ⟨tf, hw, rfl⟩))⟩
                · simp only [mlfqMaybeBoost_events]
                · simp [mlfqMaybeBoost_procs]
              | false =>
                right
                refine ⟨j, p, e, rest,
                  rrError (executeProcess p e.tRun e.forkResult) tf, hp, hel,
                  hev, ?_, ?_, executeProcess p e.tRun e.forkResult,
                  Or.inl ⟨hst, rfl⟩, Or.inr (Or.inr (Or.inr ⟨tf, hw, rfl⟩))⟩
                · simp only [mlfqMaybeBoost_events]
                · simp [mlfqMaybeBoost_procs]
          · next hst =>
            split
            · next hw =>
              right
              exact ⟨j, p, e, rest, resumeProcess p e.tRun, hp, hel,
                hev, rfl, rfl, resumeProcess p e.tRun,
                Or.inr ⟨hst, rfl⟩, Or.inl ⟨hw, rfl⟩⟩
            · next tp hw =>
              right
              refine ⟨j, p, e, rest, pauseProcess (resumeProcess p e.tRun) tp,
                hp, hel, hev, ?_, ?_, resumeProcess p e.tRun,
                Or.inr ⟨hst, rfl⟩, Or.inr (Or.inl ⟨tp, hw, rfl⟩)⟩
              · simp only [mlfqMaybeBoost_events]
              · simp only [mlfqMaybeBoost_procs]
            · next ok tf hw =>
              cases ok with
              | true =>
                right
                refine ⟨j, p, e, rest, rrFinish (resumeProcess p e.tRun) tf,
                  hp, hel, hev, ?_, ?_, resumeProcess p e.tRun,
                  Or.inr ⟨hst, rfl⟩, Or.inr (Or.inr (Or.inl ⟨tf, hw, rfl⟩))⟩
                · simp only [mlfqMaybeBoost_events]
                · simp [mlfqMaybeBoost_procs]
              | false =>
                right
                refine ⟨j, p, e, rest, rrError (resumeProcess p e.tRun) tf,
                  hp, hel, hev, ?_, ?_, resumeProcess p e.tRun,
                  Or.inr ⟨hst, rfl⟩, Or.inr (Or.inr (Or.inr ⟨tf, hw, rfl⟩))⟩
                · simp only [mlfqMaybeBoost_events]
                · simp [mlfqMaybeBoost_procs]

/-- Any per-record property preserved by the four lifecycle transformers on
eligible records is an invariant of the RoundRobin loop body. -/
theorem rrStep_preserves (P : Process → Prop) (TOK : Nat → Prop)
    (hexec : ∀ (p : Process) (t : Nat) (f : Int),
      TOK t → eligible p → P p → P (executeProcess p t f))
    (hres : ∀ (p : Process) (t : Nat), TOK t → eligible p → P p → P (resumeProcess p t))
    (hpause : ∀ (p : Process) (t : Nat), TOK t → eligible p → P p → P (pauseProcess p t))
    (hfin : ∀ (p : Process) (t : Nat), TOK t → eligible p → P p → P (rrFinish p t))
    (herr : ∀ (p : Process) (t : Nat), TOK t → eligible p → P p → P (rrError p t))
    (s : RRState) (hP : ∀ p ∈ s.procs, P p)
    (hE : ∀ e ∈ s.events, rrEventTimesOK TOK e) :
    (∀ p ∈ (rrStep s).procs, P p) ∧ (∀ e ∈ (rrStep s).events, rrEventTimesOK TOK e) := by
  rcases rrStep_cases s with ⟨h1, h2⟩ |
    ⟨p, e, rest, q, hp, hel, hev, hev2, hpr, p1, hp1, hq⟩
  · rw [h1, h2]
    exact ⟨hP, hE⟩
  · have hPp : P p := hP p (List.getElem?_mem hp)
    have hEe : rrEventTimesOK TOK e := hE e (by rw [hev]; exact List.mem_cons_self e rest)
    have hP1 : P p1 := by
      rcases hp1 with ⟨hst, h⟩ | ⟨hst, h⟩
      · rw [h]; exact hexec p e.tRun e.forkResult hEe.1 hel hPp
      · rw [h]; exact hres p e.tRun hEe.1 hel hPp
    have hel1 : eligible p1 := by
      rcases hp1 with ⟨hst, h⟩ | ⟨hst, h⟩
      · rw [h]; exact eligible_executeProcess _ _ hel
      · rw [h]; exact eligible_resumeProcess _ hel
    have hPq : P q := by
      rcases hq with ⟨hw, h⟩ | ⟨tp, hw, h⟩ | ⟨tf, hw, h⟩ | ⟨tf, hw, h⟩
      · rw [h]; exact hP1
      · rw [h]
        have htp : TOK tp := by
          have h2 := hEe.2
          rw [hw] at h2
          exact h2
        exact hpause p1 tp htp hel1 hP1
      · rw [h]
        have htf : TOK tf := by
          have h2 := hEe.2
          rw [hw] at h2
          exact h2
        exact hfin p1 tf htf hel1 hP1
      · rw [h]
        have htf : TOK tf := by
          have h2 := hEe.2
          rw [hw] at h2
          exact h2
        exact herr p1 tf htf hel1 hP1
    constructor
    · rw [hpr]
      intro r hr
      rcases List.mem_or_eq_of_mem_set hr with hr2 | hr2
      · exact hP r hr2
      · rw [hr2]; exact hPq
    · rw [hev2]
      intro x hx
      exact hE x (by rw [hev]; exact List.mem_cons_of_mem e hx)

/-- Same preservation for the offline-MLFQ loop body. -/
theorem mlfqStep_preserves (P : Process → Prop) (TOK : Nat → Prop)
    (hexec : ∀ (p : Process) (t : Nat) (f : Int),
      TOK t → eligible p → P p → P (executeProcess p t f))
    (hres : ∀ (p : Process) (t : Nat), TOK t → eligible p → P p → P (resumeProcess p t))
    (hpause : ∀ (p : Process) (t : Nat), TOK t → eligible p → P p → P (pauseProcess p t))
    (hfin : ∀ (p : Process) (t : Nat), TOK t → eligible p → P p → P (rrFinish p t))
    (herr : ∀ (p : Process) (t : Nat), TOK t → eligible p → P p → P (rrError p t))
    (s : MLFQState) (hP : ∀ p ∈ s.procs, P p)
    (hE : ∀ e ∈ s.events, mlfqEventTimesOK TOK e) :
    (∀ p ∈ (mlfqStep s).procs, P p) ∧
    (∀ e ∈ (mlfqStep s).events, mlfqEventTimesOK TOK e) := by
  rcases mlfqStep_cases s with ⟨h1, h2⟩ |
    ⟨j, p, e, rest, q, hp, hel, hev, hev2, hpr, p1, hp1, hq⟩
  · rw [h1, h2]
    exact ⟨hP, hE⟩
  · have hPp : P p := hP p (List.getElem?_mem hp)
    have hEe : mlfqEventTimesOK TOK e := hE e (by rw [hev]; exact List.mem_cons_self e rest)
    have hP1 : P p1 := by
      rcases hp1 with ⟨hst, h⟩ | ⟨hst, h⟩
      · rw [h]; exact hexec p e.tRun e.forkResult hEe.1 hel hPp
      · rw [h]; exact hres p e.tRun hEe.1 hel hPp
    have hel1 : eligible p1 := by
      rcases hp1 with ⟨hst, h⟩ | ⟨hst, h⟩
      · rw [h]; exact eligible_executeProcess _ _ hel
      · rw [h]; exact eligible_resumeProcess _ hel
    have hPq : P q := by
      rcases hq with ⟨hw, h⟩ | ⟨tp, hw, h⟩ | ⟨tf, hw, h⟩ | ⟨tf, hw, h⟩
      · rw [h]; exact hP1
      · rw [h]
        have htp : TOK tp := by
          have h2 := hEe.2
          rw [hw] at h2
          exact h2
        exact hpause p1 tp htp hel1 hP1
      · rw [h]
        have htf : TOK tf := by
          have h2 := hEe.2
          rw [hw] at h2
          exact h2
        exact hfin p1 tf htf hel1 hP1
      · rw [h]
        have htf : TOK tf := by
          have h2 := hEe.2
          rw [hw] at h2
          exact h2
        exact herr p1 tf htf hel1 hP1
    constructor
    · rw [hpr]
      intro r hr
      rcases List.mem_or_eq_of_mem_set hr with hr2 | hr2
      · exact hP r hr2
      · rw [hr2]; exact hPq
    · rw [hev2]
      intro x hx
      exact hE x (by rw [hev]; exact List.mem_cons_of_mem e hx)

/-- Iterated preservation for RoundRobin. -/
theorem rrRun_preserves (P : Process → Prop) (TOK : Nat → Prop)
    (hexec : ∀ (p : Process) (t : Nat) (f : Int),
      TOK t → eligible p → P p → P (executeProcess p t f))
    (hres : ∀ (p : Process) (t : Nat), TOK t → eligible p → P p → P (resumeProcess p t))
    (hpause : ∀ (p : Process) (t : Nat), TOK t → eligible p → P p → P (pauseProcess p t))
    (hfin : ∀ (p : Process) (t : Nat), TOK t → eligible p → P p → P (rrFinish p t))
    (herr : ∀ (p : Process) (t : Nat), TOK t → eligible p → P p → P (rrError p t)) :
    ∀ (n : Nat) (s : RRState), (∀ p ∈ s.procs, P p) →
      (∀ e ∈ s.events, rrEventTimesOK TOK e) →
      ∀ p ∈ (iterateStep rrStep n s).procs, P p := by
  intro n
  induction n with
  | zero => intro s hP _; exact hP
  | succ k ih =>
    intro s hP hE
    have h := rrStep_preserves P TOK hexec hres hpause hfin herr s hP hE
    exact ih (rrStep s) h.1 h.2

/-- Iterated preservation for the offline MLFQ. -/
theorem mlfqRun_preserves (P : Process → Prop) (TOK : Nat → Prop)
    (hexec : ∀ (p : Process) (t : Nat) (f : Int),
      TOK t → eligible p → P p → P (executeProcess p t f))
    (hres : ∀ (p : Process) (t : Nat), TOK t → eligible p → P p → P (resumeProcess p t))
    (hpause : ∀ (p : Process) (t : Nat), TOK t → eligible p → P p → P (pauseProcess p t))
    (hfin : ∀ (p : Process) (t : Nat), TOK t → eligible p → P p → P (rrFinish p t))
    (herr : ∀ (p : Process) (t : Nat), TOK t → eligible p → P p → P (rrError p t)) :
    ∀ (n : Nat) (s : MLFQState), (∀ p ∈ s.procs, P p) →
      (∀ e ∈ s.events, mlfqEventTimesOK TOK e) →
      ∀ p ∈ (iterateStep mlfqStep n s).procs, P p := by
  intro n
  induction n with
  | zero => intro s hP _; exact hP
  | succ k ih =>
    intro s hP hE
    have h := mlfqStep_preserves P TOK hexec hres hpause hfin herr s hP hE
    exact ih (mlfqStep s) h.1 h.2

/-- Preservation for the FCFS fold: each record is transformed once by
`fcfsBody`; inputs must carry the property and be non-terminal (as the
initialized records are). -/
theorem fcfsRun_preserves (P : Process → Prop) (TOK : Nat → Prop)
    (hexec : ∀ (p : Process) (t : Nat) (f : Int),
      TOK t → eligible p → P p → P (executeProcess p t f))
    (hfin : ∀ (p : Process) (t : Nat), TOK t → eligible p → P p → P (fcfsFinish p t))
    (herr : ∀ (p : Process) (t : Nat), TOK t → eligible p → P p → P (fcfsError p t)) :
    ∀ (ps : List Process) (es : List FCFSEvent),
      (∀ p ∈ ps, P p ∧ eligible p) → (∀ e ∈ es, fcfsEventTimesOK TOK e) →
      ∀ q ∈ fcfsRun ps es, P q := by
  intro ps
  induction ps with
  | nil =>
    intro es _ _ q hq
    cases hq
  | cons p rest ih =>
    intro es hP hE q hq
    cases es with
    | nil =>
      exact (hP q hq).1
    | cons e ees =>
      have hEe : fcfsEventTimesOK TOK e := hE e (List.mem_cons_self e ees)
      rcases hP p (List.mem_cons_self p rest) with ⟨hPp, help⟩
      rcases List.mem_cons.mp hq with hq1 | hq1
      · rw [hq1]
        show P (fcfsBody p e)
        unfold fcfsBody
        have hP1 : P (executeProcess p e.tExec e.forkResult) :=
          hexec p e.tExec e.forkResult hEe.1 help hPp
        have hel1 : eligible (executeProcess p e.tExec e.forkResult) :=
          eligible_executeProcess _ _ help
        cases e.wait with
        | none => exact hP1
        | some ok =>
          cases ok with
          | true => exact hfin _ e.tFin hEe.2 hel1 hP1
          | false => exact herr _ e.tFin hEe.2 hel1 hP1
      · exact ih ees (fun r hr => hP r (List.mem_cons_of_mem p hr))
          (fun x hx => hE x (List.mem_cons_of_mem e hx)) q hq1

/-- A record already terminal is never modified by a RoundRobin step: the
loop skips finished and errored records. -/
theorem rrStep_terminal_stable (s : RRState) (j : Nat) (p : Process)
    (hj : s.procs[j]? = some p) (hterm : p.finished = true ∨ p.error = true) :
    (rrStep s).procs[j]? = some p := by
  rcases rrStep_cases s with ⟨h1, _⟩ |
    ⟨q0, e, rest, q, hp, hel, _, _, hpr, _, _, _⟩
  · rw [h1]; exact hj
  · rw [hpr]
    have hne : s.i ≠ j := by
      intro hij
      rw [hij, hj] at hp
      have hq0 : p = q0 := by
        injection hp
      rw [← hq0] at hel
      unfold eligible at hel
      rcases hterm with h | h <;> rw [h] at hel <;> simp at hel
    rw [List.getElem?_set_ne hne]
    exact hj

/-- A record already terminal is never modified by an offline-MLFQ step. -/
theorem mlfqStep_terminal_stable (s : MLFQState) (j : Nat) (p : Process)
    (hj : s.procs[j]? = some p) (hterm : p.finished = true ∨ p.error = true) :
    (mlfqStep s).procs[j]? = some p := by
  rcases mlfqStep_cases s with ⟨h1, _⟩ |
    ⟨j2, q0, e, rest, q, hp, hel, _, _, hpr, _, _, _⟩
  · rw [h1]; exact hj
  · rw [hpr]
    have hne : j2 ≠ j := by
      intro hij
      rw [hij, hj] at hp
      have hq0 : p = q0 := by
        injection hp
      rw [← hq0] at hel
      unfold eligible at hel
      rcases hterm with h | h <;> rw [h] at hel <;> simp at hel
    rw [List.getElem?_set_ne hne]
    exact hj

theorem eligible_iff (p : Process) :
    eligible p ↔ (p.finished = false ∧ p.error = false) := by
  unfold eligible
  cases p.finished <;> cases p.error <;> simp


/-- The run invariant behind C10: arrival stays zero, start is a genuine
uint64 value, terminal records satisfy turnaround = completion and
response = start, and non-terminal records still have turnaround and
completion at their initialized zero. -/
def offlineMetricsInv (p : Process) : Prop :=
  p.arrival_time = 0 ∧ p.start_time < W ∧
  ((p.finished = true ∨ p.error = true) →
    (p.turnaround_time = p.completion_time ∧ p.response_time = p.start_time)) ∧
  ((p.finished = false ∧ p.error = false) →
    (p.turnaround_time = 0 ∧ p.completion_time = 0))

theorem offlineMetricsInv_executeProcess (p : Process) (t : Nat) (f : Int)
    (ht : t < W) (hel : eligible p) (hPp : offlineMetricsInv p) :
    offlineMetricsInv (executeProcess p t f) := by
  unfold executeProcess
  split
  · exact hPp
  · rcases (eligible_iff p).mp hel with ⟨hf, he⟩
    rcases hPp with ⟨ha, _, _, hnon⟩
    refine ⟨ha, ht, ?_, ?_⟩
    · intro hcon
      rcases hcon with h | h
      · rw [hf] at h
        exact Bool.noConfusion h
      · rw [he] at h
        exact Bool.noConfusion h
    · intro _
      exact hnon ⟨hf, he⟩

theorem offlineMetricsInv_resumeProcess (p : Process) (t : Nat)
    (hPp : offlineMetricsInv p) : offlineMetricsInv (resumeProcess p t) := by
  unfold resumeProcess
  split
  · exact hPp
  · exact hPp

theorem offlineMetricsInv_pauseProcess (p : Process) (t : Nat)
    (hPp : offlineMetricsInv p) : offlineMetricsInv (pauseProcess p t) := by
  unfold pauseProcess
  split
  · exact hPp
  · exact hPp

theorem offlineMetricsInv_rrFinish (p : Process) (t : Nat)
    (ht : t < W) (hPp : offlineMetricsInv p) :
    offlineMetricsInv (rrFinish p t) := by
  rcases hPp with ⟨ha, hs, _, _⟩
  refine ⟨ha, hs, ?_, ?_⟩
  · intro _
    constructor
    · show u64sub t p.arrival_time = t
      rw [ha]
      exact u64sub_zero ht
    · show u64sub p.start_time p.arrival_time = p.start_time
      rw [ha]
      exact u64sub_zero hs
  · intro hcon
    exact Bool.noConfusion hcon.1

theorem offlineMetricsInv_fcfsFinish (p : Process) (t : Nat)
    (ht : t < W) (hPp : offlineMetricsInv p) :
    offlineMetricsInv (fcfsFinish p t) := by
  rcases hPp with ⟨ha, hs, _, _⟩
  refine ⟨ha, hs, ?_, ?_⟩
  · intro _
    constructor
    · show u64sub t p.arrival_time = t
      rw [ha]
      exact u64sub_zero ht
    · show u64sub p.start_time p.arrival_time = p.start_time
      rw [ha]
      exact u64sub_zero hs
  · intro hcon
    exact Bool.noConfusion hcon.1

theorem offlineMetricsInv_rrError (p : Process) (t : Nat)
    (hel : eligible p) (hPp : offlineMetricsInv p) :
    offlineMetricsInv (rrError p t) := by
  rcases (eligible_iff p).mp hel with ⟨hf, he⟩
  rcases hPp with ⟨ha, hs, _, hnon⟩
  rcases hnon ⟨hf, he⟩ with ⟨ht0, hc0⟩
  refine ⟨ha, hs, ?_, ?_⟩
  · intro _
    constructor
    · show p.turnaround_time = p.completion_time
      rw [ht0, hc0]
    · show u64sub p.start_time p.arrival_time = p.start_time
      rw [ha]
      exact u64sub_zero hs
  · intro hcon
    exact Bool.noConfusion hcon.2

theorem offlineMetricsInv_fcfsError (p : Process) (t : Nat)
    (hel : eligible p) (hPp : offlineMetricsInv p) :
    offlineMetricsInv (fcfsError p t) := by
  rcases (eligible_iff p).mp hel with ⟨hf, he⟩
  rcases hPp with ⟨ha, hs, _, hnon⟩
  rcases hnon ⟨hf, he⟩ with ⟨ht0, hc0⟩
  refine ⟨ha, hs, ?_, ?_⟩
  · intro _
    constructor
    · show p.turnaround_time = p.completion_time
      rw [ht0, hc0]
    · show u64sub p.start_time p.arrival_time = p.start_time
      rw [ha]
      exact u64sub_zero hs
  · intro hcon
    exact Bool.noConfusion hcon.2

theorem offlineMetricsInv_init (p : Process) :
    offlineMetricsInv (initializeProcess p) := by
  refine ⟨rfl, W_pos, ?_, ?_⟩
  · intro hcon
    rcases hcon with h | h <;> exact Bool.noConfusion h
  · intro _
    exact ⟨rfl, rfl⟩

/-- C10: all three offline schedulers initialize every arrival time to 0, so
in the final state of any run every terminal record satisfies
turnaround = completion and response = start (for errored records both
turnaround and completion are still 0, so the equality holds there too).
The hypothesis says the event clock readings are uint64 values. -/
theorem offline_turnaround_eq_completion :
    (∀ (ps : List Process) (es : List FCFSEvent),
      (∀ e ∈ es, fcfsEventTimesOK (fun t => t < W) e) →
      ∀ q ∈ FCFS ps es, (q.finished = true ∨ q.error = true) →
        q.arrival_time = 0 ∧ q.turnaround_time = q.completion_time ∧
        q.response_time = q.start_time) ∧
    (∀ (fuel : Nat) (ps : List Process) (es : List RREvent),
      (∀ e ∈ es, rrEventTimesOK (fun t => t < W) e) →
      ∀ q ∈ (RoundRobin fuel ps es).procs, (q.finished = true ∨ q.error = true) →
        q.arrival_time = 0 ∧ q.turnaround_time = q.completion_time ∧
        q.response_time = q.start_time) ∧
    (∀ (fuel : Nat) (ps : List Process) (es : List MLFQEvent) (bt : Nat),
      (∀ e ∈ es, mlfqEventTimesOK (fun t => t < W) e) →
      ∀ q ∈ (MultiLevelFeedbackQueue fuel ps es bt).procs,
        (q.finished = true ∨ q.error = true) →
        q.arrival_time = 0 ∧ q.turnaround_time = q.completion_time ∧
        q.response_time = q.start_time) := by
  refine ⟨?_, ?_, ?_⟩
  · intro ps es hE q hq hterm
    have hP : offlineMetricsInv q := by
      refine fcfsRun_preserves offlineMetricsInv (fun t => t < W)
        offlineMetricsInv_executeProcess
        (fun p t ht _ hPp => offlineMetricsInv_fcfsFinish p t ht hPp)
        (fun p t _ hel hPp => offlineMetricsInv_fcfsError p t hel hPp)
        (ps.map initializeProcess) es ?_ hE q hq
      intro r hr
      rcases List.mem_map.mp hr with ⟨x, _, hx⟩
      rw [← hx]
      exact ⟨offlineMetricsInv_init x, rfl⟩
    exact ⟨hP.1, hP.2.2.1 hterm⟩
  · intro fuel ps es hE q hq hterm
    have hP : offlineMetricsInv q := by
      refine rrRun_preserves offlineMetricsInv (fun t => t < W)
        offlineMetricsInv_executeProcess
        (fun p t _ _ hPp => offlineMetricsInv_resumeProcess p t hPp)
        (fun p t _ _ hPp => offlineMetricsInv_pauseProcess p t hPp)
        (fun p t ht _ hPp => offlineMetricsInv_rrFinish p t ht hPp)
        (fun p t _ hel hPp => offlineMetricsInv_rrError p t hel hPp)
        fuel (rrInit ps es) ?_ hE q hq
      intro r hr
      rcases List.mem_map.mp hr with ⟨x, _, hx⟩
      rw [← hx]
      exact offlineMetricsInv_init x
    exact ⟨hP.1, hP.2.2.1 hterm⟩
  · intro fuel ps es bt hE q hq hterm
    have hP : offlineMetricsInv q := by
      refine mlfqRun_preserves offlineMetricsInv (fun t => t < W)
        offlineMetricsInv_executeProcess
        (fun p t _ _ hPp => offlineMetricsInv_resumeProcess p t hPp)
        (fun p t _ _ hPp => offlineMetricsInv_pauseProcess p t hPp)
        (fun p t ht _ hPp => offlineMetricsInv_rrFinish p t ht hPp)
        (fun p t _ hel hPp => offlineMetricsInv_rrError p t hel hPp)
        fuel (mlfqInit ps es bt) ?_ hE q hq
      intro r hr
      rcases List.mem_map.mp hr with ⟨x, _, hx⟩
      rw [← hx]
      exact offlineMetricsInv_init x
    exact ⟨hP.1, hP.2.2.1 hterm⟩

theorem offline_turnaround_eq_completion_witness :
    ((FCFS [{ command := "c" }]
        [{ forkResult := 1, tExec := 2, wait := some true, tFin := 5 }]).getD 0
      default).arrival_time = 0 ∧
    ((FCFS [{ command := "c" }]
        [{ forkResult := 1, tExec := 2, wait := some true, tFin := 5 }]).getD 0
      default).turnaround_time =
      ((FCFS [{ command := "c" }]
          [{ forkResult := 1, tExec := 2, wait := some true, tFin := 5 }]).getD 0
        default).completion_time ∧
    ((FCFS [{ command := "c" }]
        [{ forkResult := 1, tExec := 2, wait := some true, tFin := 5 }]).getD 0
      default).response_time =
      ((FCFS [{ command := "c" }]
          [{ forkResult := 1, tExec := 2, wait := some true, tFin := 5 }]).getD 0
        default).start_time :=
  offline_turnaround_eq_completion.1 [{ command := "c" }]
    [{ forkResult := 1, tExec := 2, wait := some true, tFin := 5 }]
    (by
      intro e he
      rcases List.mem_singleton.mp he with rfl
      exact ⟨by decide, by decide⟩)
    ((FCFS [{ command := "c" }]
        [{ forkResult := 1, tExec := 2, wait := some true, tFin := 5 }]).getD 0
      default)
    (by decide) (by decide)

/-- C6: counterexample.  With two processes and a waitpid failure on the
first dispatch, the offline RoundRobin loop executes its `break`: the run
stops (the resulting state is a fixed point of `rrStep`), the second record
is never started, and both records are left non-terminal - scheduling does
NOT continue with the remaining records. -/
theorem rr_waitpid_failure_breaks_loop :
    (RoundRobin 5 [{ command := "a" }, { command := "b" }]
      [{ tRun := 1, forkResult := 7, wait := WaitResult.fail }]).broke = true ∧
    (RoundRobin 5 [{ command := "a" }, { command := "b" }]
      [{ tRun := 1, forkResult := 7, wait := WaitResult.fail }]).remaining = 2 ∧
    ((RoundRobin 5 [{ command := "a" }, { command := "b" }]
      [{ tRun := 1, forkResult := 7, wait := WaitResult.fail }]).procs.getD 1
        default).started = false ∧
    rrStep (RoundRobin 5 [{ command := "a" }, { command := "b" }]
      [{ tRun := 1, forkResult := 7, wait := WaitResult.fail }]) =
      RoundRobin 5 [{ command := "a" }, { command := "b" }]
        [{ tRun := 1, forkResult := 7, wait := WaitResult.fail }] := by decide

/-- C6 (amended): fork failures are non-fatal in every policy (the record is
left unchanged and the loop proceeds), and FCFS treats a waitpid failure as
non-fatal, skipping to the next record with the current one left
non-terminal; but in the offline RoundRobin and offline MLFQ a waitpid
failure executes `break`: the step halts the loop for good (a halted state
is a fixed point), abandoning the remaining records. -/
theorem control_failure_handling :
    (∀ (p : Process) (t : Nat) (f : Int), f < 0 → executeProcess p t f = p) ∧
    (∀ (p : Process) (ps : List Process) (e : FCFSEvent) (es : List FCFSEvent),
      e.wait = none →
      fcfsRun (p :: ps) (e :: es) =
        executeProcess p e.tExec e.forkResult :: fcfsRun ps es) ∧
    (∀ s : RRState, s.halted = true → rrStep s = s) ∧
    (∀ (s : RRState) (p : Process) (e : RREvent) (rest : List RREvent),
      s.halted = false → s.remaining ≠ 0 → s.procs[s.i]? = some p →
      eligible p → s.events = e :: rest → e.wait = WaitResult.fail →
      (rrStep s).halted = true ∧ (rrStep s).broke = true ∧
      (rrStep s).remaining = s.remaining) ∧
    (∀ s : MLFQState, s.halted = true → mlfqStep s = s) ∧
    (∀ (s : MLFQState) (j : Nat) (q : List Nat) (p : Process) (e : MLFQEvent)
        (rest : List MLFQEvent),
      s.halted = false → s.remaining ≠ 0 →
      s.queues.getD s.currentQueue [] = j :: q → s.procs[j]? = some p →
      eligible p → s.events = e :: rest → e.wait = WaitResult.fail →
      (mlfqStep s).halted = true ∧ (mlfqStep s).broke = true ∧
      (mlfqStep s).remaining = s.remaining) := by
  refine ⟨?_, ?_, ?_, ?_, ?_, ?_⟩
  · intro p t f h
    unfold executeProcess
    rw [if_pos h]
  · intro p ps e es hw
    show fcfsBody p e :: fcfsRun ps es = _
    unfold fcfsBody
    rw [hw]
  · intro s h
    unfold rrStep
    rw [if_pos h]
  · intro s p e rest h1 h2 hp hel hev hw
    have hel2 : (p.finished || p.error) = false := hel
    unfold rrStep
    rw [if_neg (by rw [h1]; exact Bool.false_ne_true)]
    rw [if_neg h2]
    simp only [hp]
    rw [if_neg (by rw [hel2]; exact Bool.false_ne_true)]
    simp only [hev, hw]
    refine ⟨?_, ?_, ?_⟩ <;> trivial
  · intro s h
    unfold mlfqStep
    rw [if_pos h]
  · intro s j q p e rest h1 h2 hq0 hp hel hev hw
    have hel2 : (p.finished || p.error) = false := hel
    unfold mlfqStep
    rw [if_neg (by rw [h1]; exact Bool.false_ne_true)]
    rw [if_neg h2]
    simp only [hq0, hp]
    rw [if_neg (by rw [hel2]; exact Bool.false_ne_true)]
    simp only [hev, hw]
    refine ⟨?_, ?_, ?_⟩ <;> trivial

theorem control_failure_handling_witness :
    executeProcess partialRecord 3 (-1) = partialRecord ∧
    (rrStep { procs := [{ command := "a" }], i := 0, remaining := 1, halted := false, broke := false, events := [{ tRun := 1, forkResult := 7, wait := WaitResult.fail }] }).halted = true :=
  ⟨control_failure_handling.1 partialRecord 3 (-1) (by decide),
   (control_failure_handling.2.2.2.1
      { procs := [{ command := "a" }], i := 0, remaining := 1, halted := false, broke := false, events := [{ tRun := 1, forkResult := 7, wait := WaitResult.fail }] }
      { command := "a" } { tRun := 1, forkResult := 7, wait := WaitResult.fail } []
      rfl (by decide) rfl rfl rfl rfl).1⟩

/-- C1: counterexample.  An FCFS run whose only child exits nonzero yields a
terminal (errored) record with waiting_time = 0, burst_time = 4 and
turnaround_time = 0, so the claimed identity
waiting = turnaround - burst fails in uint64 arithmetic (the error branch
leaves turnaround and waiting untouched while recomputing burst). -/
theorem error_record_violates_waiting_identity :
    ((FCFS [{ command := "boom" }]
        [{ forkResult := 1, tExec := 2, wait := some false, tFin := 6 }]).getD 0
      default).error = true ∧
    ((FCFS [{ command := "boom" }]
        [{ forkResult := 1, tExec := 2, wait := some false, tFin := 6 }]).getD 0
      default).waiting_time = 0 ∧
    ((FCFS [{ command := "boom" }]
        [{ forkResult := 1, tExec := 2, wait := some false, tFin := 6 }]).getD 0
      default).burst_time = 4 ∧
    ((FCFS [{ command := "boom" }]
        [{ forkResult := 1, tExec := 2, wait := some false, tFin := 6 }]).getD 0
      default).waiting_time ≠
      u64sub
        ((FCFS [{ command := "boom" }]
            [{ forkResult := 1, tExec := 2, wait := some false, tFin := 6 }]).getD 0
          default).turnaround_time
        ((FCFS [{ command := "boom" }]
            [{ forkResult := 1, tExec := 2, wait := some false, tFin := 6 }]).getD 0
          default).burst_time := by decide

/-- C1 (amended): every success-branch finalization (fcfsFinish, sjfFinish,
rrFinish - the latter shared by RR and both MLFQ variants) satisfies
turnaround = completion - arrival, waiting = turnaround - burst and
response = start - arrival in uint64 arithmetic, and under clock
monotonicity the four metrics are exact non-negative differences; records
finalized through an error branch only guarantee
response = start - arrival. -/
theorem finish_metrics_identities :
    ∀ (p : Process) (now : Nat),
      ((fcfsFinish p now).turnaround_time =
        u64sub (fcfsFinish p now).completion_time (fcfsFinish p now).arrival_time ∧
       (fcfsFinish p now).waiting_time =
        u64sub (fcfsFinish p now).turnaround_time (fcfsFinish p now).burst_time ∧
       (fcfsFinish p now).response_time =
        u64sub (fcfsFinish p now).start_time (fcfsFinish p now).arrival_time) ∧
      ((sjfFinish p now).turnaround_time =
        u64sub (sjfFinish p now).completion_time (sjfFinish p now).arrival_time ∧
       (sjfFinish p now).waiting_time =
        u64sub (sjfFinish p now).turnaround_time (sjfFinish p now).burst_time ∧
       (sjfFinish p now).response_time =
        u64sub (sjfFinish p now).start_time (sjfFinish p now).arrival_time) ∧
      ((rrFinish p now).turnaround_time =
        u64sub (rrFinish p now).completion_time (rrFinish p now).arrival_time ∧
       (rrFinish p now).waiting_time =
        u64sub (rrFinish p now).turnaround_time (rrFinish p now).burst_time ∧
       (rrFinish p now).response_time =
        u64sub (rrFinish p now).start_time (rrFinish p now).arrival_time) ∧
      ((fcfsError p now).response_time =
        u64sub (fcfsError p now).start_time (fcfsError p now).arrival_time ∧
       (sjfError p now).response_time =
        u64sub (sjfError p now).start_time (sjfError p now).arrival_time ∧
       (rrError p now).response_time =
        u64sub (rrError p now).start_time (rrError p now).arrival_time) ∧
      (p.arrival_time ≤ p.start_time → p.start_time ≤ now → now < W →
        (fcfsFinish p now).burst_time = now - p.start_time ∧
        (fcfsFinish p now).turnaround_time = now - p.arrival_time ∧
        (fcfsFinish p now).waiting_time = p.start_time - p.arrival_time ∧
        (fcfsFinish p now).response_time = p.start_time - p.arrival_time) ∧
      (p.arrival_time ≤ p.start_time → p.start_time ≤ p.context_start_time →
        p.context_start_time ≤ now → now < W →
        (sjfFinish p now).burst_time = now - p.context_start_time ∧
        (sjfFinish p now).turnaround_time = now - p.arrival_time ∧
        (sjfFinish p now).waiting_time = p.context_start_time - p.arrival_time ∧
        (sjfFinish p now).response_time = p.start_time - p.arrival_time) ∧
      (p.arrival_time ≤ p.start_time → p.start_time ≤ p.context_start_time →
        p.context_start_time ≤ now → now < W →
        p.burst_time + p.arrival_time ≤ p.context_start_time →
        (rrFinish p now).burst_time = p.burst_time + (now - p.context_start_time) ∧
        (rrFinish p now).turnaround_time = now - p.arrival_time ∧
        (rrFinish p now).waiting_time =
          p.context_start_time - p.arrival_time - p.burst_time ∧
        (rrFinish p now).response_time = p.start_time - p.arrival_time) := by
  intro p now
  refine ⟨⟨rfl, rfl, rfl⟩, ⟨rfl, rfl, rfl⟩, ⟨rfl, rfl, rfl⟩, ⟨rfl, rfl, rfl⟩,
    ?_, ?_, ?_⟩
  · intro h1 h2 h3
    have hb : u64sub now p.start_time = now - p.start_time := u64sub_of_le h2 h3
    have hta : u64sub now p.arrival_time = now - p.arrival_time :=
      u64sub_of_le (le_trans h1 h2) h3
    refine ⟨hb, hta, ?_, u64sub_of_le h1 (lt_of_le_of_lt h2 h3)⟩
    show u64sub (u64sub now p.arrival_time) (u64sub now p.start_time) = _
    rw [hb, hta]
    rw [u64sub_of_le (Nat.sub_le_sub_left h1 now)
      (lt_of_le_of_lt (Nat.sub_le now p.arrival_time) h3)]
    omega
  · intro h1 h2 h3 h4
    have hb : u64sub now p.context_start_time = now - p.context_start_time :=
      u64sub_of_le h3 h4
    have hta : u64sub now p.arrival_time = now - p.arrival_time :=
      u64sub_of_le (le_trans (le_trans h1 h2) h3) h4
    refine ⟨hb, hta, ?_, u64sub_of_le h1 (lt_of_le_of_lt (le_trans h2 h3) h4)⟩
    show u64sub (u64sub now p.arrival_time) (u64sub now p.context_start_time) = _
    rw [hb, hta]
    rw [u64sub_of_le (Nat.sub_le_sub_left (le_trans h1 h2) now)
      (lt_of_le_of_lt (Nat.sub_le now p.arrival_time) h4)]
    omega
  · intro h1 h2 h3 h4 h5
    have hs : u64sub now p.context_start_time = now - p.context_start_time :=
      u64sub_of_le h3 h4
    have hblt : p.burst_time + (now - p.context_start_time) ≤ now := by omega
    have hb : u64add p.burst_time (u64sub now p.context_start_time) =
        p.burst_time + (now - p.context_start_time) := by
      rw [hs]
      exact u64add_of_lt (lt_of_le_of_lt hblt h4)
    have hta : u64sub now p.arrival_time = now - p.arrival_time :=
      u64sub_of_le (le_trans (le_trans h1 h2) h3) h4
    refine ⟨hb, hta, ?_, u64sub_of_le h1 (lt_of_le_of_lt (le_trans h2 h3) h4)⟩
    show u64sub (u64sub now p.arrival_time)
      (u64add p.burst_time (u64sub now p.context_start_time)) = _
    rw [hb, hta]
    rw [u64sub_of_le (by omega)
      (lt_of_le_of_lt (Nat.sub_le now p.arrival_time) h4)]
    omega

theorem finish_metrics_identities_witness :
    (fcfsFinish partialRecord 9).burst_time = 9 - partialRecord.start_time ∧
    (fcfsFinish partialRecord 9).turnaround_time = 9 - partialRecord.arrival_time ∧
    (fcfsFinish partialRecord 9).waiting_time =
      partialRecord.start_time - partialRecord.arrival_time ∧
    (fcfsFinish partialRecord 9).response_time =
      partialRecord.start_time - partialRecord.arrival_time :=
  (finish_metrics_identities partialRecord 9).2.2.2.2.1
    (by decide) (by decide) (by decide)

theorem getElem?_append_left_of_lt {α : Type} (l l2 : List α) (i : Nat)
    (h : i < l.length) : (l ++ l2)[i]? = l[i]? := by
  rw [List.getElem?_append, if_pos h]

theorem lt_of_getElem?_some {α : Type} {l : List α} {i : Nat} {a : α}
    (h : l[i]? = some a) : i < l.length :=
  (List.getElem?_eq_some.mp h).1

theorem eligible_pauseProcess {p : Process} (t : Nat) (h : eligible p) :
    eligible (pauseProcess p t) := by
  unfold eligible at *
  rcases pauseProcess_flags p t with ⟨h1, h2⟩
  rw [h1, h2]
  exact h

theorem getMLFQIndex_lt_three (Q : List Nat) (p : Process) (tbl : HashTable) :
    getMLFQIndex Q p tbl < 3 := by
  unfold getMLFQIndex
  cases hf : findNode tbl p.command with
  | none =>
    simp only [hf]
    omega
  | some nd =>
    simp only [hf]
    show (if nd.sum_burst_time / nd.num_bursts ≤ Q.getD 0 0 then 0
      else if nd.sum_burst_time / nd.num_bursts ≤ Q.getD 1 0 then 1 else 2) < 3
    split
    · omega
    split <;> omega

/-- When the SJF scan selects an index, the record there is eligible. -/
theorem sjfSelect_eligible (ps : List Process) (tbl : HashTable) (i : Nat) (mb : Nat)
    (h : sjfSelect ps tbl = (Int.ofNat i, mb)) :
    ∃ hi : i < ps.length, eligible (ps.get ⟨i, hi⟩) := by
  rcases sjfScan_characterization tbl ps 0 (-1) 1000000000 with
    ⟨heq, _⟩ | ⟨k, hk, hkel, _, heq, _, _⟩
  · rw [show sjfSelect ps tbl = sjfScan ps tbl 0 (-1, 1000000000) from rfl, heq] at h
    exfalso
    have h1 : (-1 : Int) = Int.ofNat i := congrArg Prod.fst h
    have h2 : (0 : Int) ≤ Int.ofNat i := Int.ofNat_nonneg i
    rw [← h1] at h2
    exact absurd h2 (by decide)
  · rw [show sjfSelect ps tbl = sjfScan ps tbl 0 (-1, 1000000000) from rfl, heq] at h
    have h1 : Int.ofNat (0 + k) = Int.ofNat i := congrArg Prod.fst h
    have h2 : 0 + k = i := Int.ofNat.inj h1
    have h3 : k = i := by omega
    subst h3
    exact ⟨hk, hkel⟩

/-- Arrivals only append fresh records: existing entries are untouched. -/
theorem sjfArrivals_stable :
    ∀ (cbs : List (String × Nat)) (st : OnlineSJFState) (j : Nat) (p : Process),
      st.procs[j]? = some p →
      (cbs.foldl sjfArrive1 st).procs[j]? = some p := by
  intro cbs
  induction cbs with
  | nil => intro st j p hj; exact hj
  | cons cb rest ih =>
    intro st j p hj
    refine ih (sjfArrive1 st cb) j p ?_
    show (st.procs ++ [_])[j]? = some p
    rw [getElem?_append_left_of_lt _ _ _ (lt_of_getElem?_some hj)]
    exact hj

/-- Arrivals preserve the flag exclusion: fresh records have both flags
clear. -/
theorem sjfArrivals_flags :
    ∀ (cbs : List (String × Nat)) (st : OnlineSJFState),
      (∀ p ∈ st.procs, ¬(p.finished = true ∧ p.error = true)) →
      ∀ p ∈ (cbs.foldl sjfArrive1 st).procs,
        ¬(p.finished = true ∧ p.error = true) := by
  intro cbs
  induction cbs with
  | nil => intro st h; exact h
  | cons cb rest ih =>
    intro st h
    refine ih (sjfArrive1 st cb) ?_
    intro p hp
    rcases List.mem_append.mp hp with h1 | h1
    · exact h p h1
    · rcases List.mem_singleton.mp h1 with rfl
      intro hcon
      exact Bool.noConfusion hcon.1

/-- The SJF decision step preserves the flag exclusion: the selected record
is eligible, so its finalization sets exactly one flag. -/
theorem onlineSjfDispatch_flags (st1 : OnlineSJFState) (ev : SJFIteration)
    (h1 : ∀ p ∈ st1.procs, ¬(p.finished = true ∧ p.error = true)) :
    ∀ p ∈ (onlineSjfDispatch st1 ev).procs, ¬(p.finished = true ∧ p.error = true) := by
  unfold onlineSjfDispatch
  split
  · exact h1
  split
  · exact h1
  next i mb hsel =>
    split
    · exact h1
    next p hp =>
      obtain ⟨hi, helig⟩ := sjfSelect_eligible _ _ i mb hsel
      have hpeq : st1.procs.get ⟨i, hi⟩ = p := by
        have h2 := List.getElem?_eq_getElem hi
        rw [hp] at h2
        exact (Option.some.inj h2).symm
      rw [hpeq] at helig
      have hP1 : ¬((executeProcess p ev.decision.tExec ev.decision.forkResult).finished = true ∧
          (executeProcess p ev.decision.tExec ev.decision.forkResult).error = true) := by
        rcases executeProcess_flags p ev.decision.tExec ev.decision.forkResult with ⟨hf, he⟩
        rw [hf, he]
        exact h1 p (List.getElem?_mem hp)
      have hel1 : eligible (executeProcess p ev.decision.tExec ev.decision.forkResult) :=
        eligible_executeProcess _ _ helig
      split
      · intro q hq
        rcases List.mem_or_eq_of_mem_set hq with h2 | h2
        · exact h1 q h2
        · rw [h2]; exact hP1
      · intro q hq
        rcases List.mem_or_eq_of_mem_set hq with h2 | h2
        · exact h1 q h2
        · rw [h2]
          intro hcon
          have he2 : (sjfFinish (executeProcess p ev.decision.tExec ev.decision.forkResult)
              ev.decision.tFin).error =
              (executeProcess p ev.decision.tExec ev.decision.forkResult).error := rfl
          rw [he2, ((eligible_iff _).mp hel1).2] at hcon
          exact Bool.noConfusion hcon.2
      · intro q hq
        rcases List.mem_or_eq_of_mem_set hq with h2 | h2
        · exact h1 q h2
        · rw [h2]
          intro hcon
          have hf2 : (sjfError (executeProcess p ev.decision.tExec ev.decision.forkResult)
              ev.decision.tFin).finished =
              (executeProcess p ev.decision.tExec ev.decision.forkResult).finished := rfl
          rw [hf2, ((eligible_iff _).mp hel1).1] at hcon
          exact Bool.noConfusion hcon.1

/-- One online SJF iteration preserves the flag exclusion. -/
theorem onlineSjfStep_flags (st : OnlineSJFState)
    (h : ∀ p ∈ st.procs, ¬(p.finished = true ∧ p.error = true)) :
    ∀ p ∈ (onlineSjfStep st).procs, ¬(p.finished = true ∧ p.error = true) := by
  unfold onlineSjfStep
  split
  · exact h
  next ev rest hev =>
    exact onlineSjfDispatch_flags _ ev
      (sjfArrivals_flags ev.arrivals { st with events := rest } h)

/-- The SJF decision step never modifies a terminal record: the scan skips
finished and errored records, so the selected index is eligible. -/
theorem onlineSjfDispatch_terminal_stable (st1 : OnlineSJFState) (ev : SJFIteration)
    (j : Nat) (p : Process) (h1 : st1.procs[j]? = some p)
    (hterm : p.finished = true ∨ p.error = true) :
    (onlineSjfDispatch st1 ev).procs[j]? = some p := by
  unfold onlineSjfDispatch
  split
  · exact h1
  split
  · exact h1
  next i mb hsel =>
    split
    · exact h1
    next q hq =>
      obtain ⟨hi, helig⟩ := sjfSelect_eligible _ _ i mb hsel
      have hgeteq : st1.procs.get ⟨i, hi⟩ = q := by
        have h2 := List.getElem?_eq_getElem hi
        rw [hq] at h2
        exact (Option.some.inj h2).symm
      have heligq : eligible q := by
        rw [← hgeteq]
        exact helig
      have hne : i ≠ j := by
        intro hij
        rw [hij, h1] at hq
        have hqp : p = q := by injection hq
        rw [← hqp] at heligq
        rcases (eligible_iff p).mp heligq with ⟨hf, he⟩
        rcases hterm with h3 | h3
        · rw [hf] at h3; exact Bool.noConfusion h3
        · rw [he] at h3; exact Bool.noConfusion h3
      split
      · rw [List.getElem?_set_ne hne]; exact h1
      · rw [List.getElem?_set_ne hne]; exact h1
      · rw [List.getElem?_set_ne hne]; exact h1

/-- One online SJF iteration never modifies a terminal record. -/
theorem onlineSjfStep_terminal_stable (st : OnlineSJFState) (j : Nat) (p : Process)
    (hj : st.procs[j]? = some p) (hterm : p.finished = true ∨ p.error = true) :
    (onlineSjfStep st).procs[j]? = some p := by
  unfold onlineSjfStep
  split
  · exact hj
  next ev rest hev =>
    exact onlineSjfDispatch_terminal_stable _ ev j p
      (sjfArrivals_stable ev.arrivals { st with events := rest } j p hj) hterm

theorem onlineMlfqBoostCheck_procs (st : OnlineMLFQState) (ev : OnlineMLFQIteration) :
    (onlineMlfqBoostCheck st ev).procs = st.procs := by
  unfold onlineMlfqBoostCheck
  split <;> rfl

theorem qjoin_mlfqBoost (qs : List (List Nat)) : qjoin (mlfqBoost qs) = qjoin qs := by
  unfold qjoin mlfqBoost
  simp

theorem onlineMlfqBoostCheck_inv (st : OnlineMLFQState) (ev : OnlineMLFQIteration)
    (h : onlineMlfqInv st) : onlineMlfqInv (onlineMlfqBoostCheck st ev) := by
  obtain ⟨hflags, hlen, hnd, hval⟩ := h
  unfold onlineMlfqBoostCheck
  split
  · refine ⟨hflags, rfl, ?_, ?_⟩
    · rw [qjoin_mlfqBoost]
      exact hnd
    · intro k hk
      rw [qjoin_mlfqBoost] at hk
      exact hval k hk
  · exact ⟨hflags, hlen, hnd, hval⟩

theorem nodup_insert_middle (x y : List Nat) (n : Nat)
    (hnd : (x ++ y).Nodup) (hn : n ∉ x ++ y) : (x ++ n :: y).Nodup :=
  List.nodup_middle.mpr (List.nodup_cons.mpr ⟨hn, hnd⟩)

theorem mem_insert_middle (x y : List Nat) (n k : Nat) :
    k ∈ x ++ n :: y ↔ k = n ∨ k ∈ x ++ y := by
  simp only [List.mem_append, List.mem_cons]
  exact or_left_comm

/-- Appending an index to queue `t` splits the joined queues around the new
entry. -/
theorem qjoin_enqueue (qs : List (List Nat)) (hlen : qs.length = 3) (t : Nat)
    (ht : t < 3) (n : Nat) :
    ∃ x y, qjoin qs = x ++ y ∧
      qjoin (qs.set t (qs.getD t [] ++ [n])) = x ++ n :: y := by
  interval_cases t
  · refine ⟨qs.getD 0 [], qs.getD 1 [] ++ qs.getD 2 [], by
      unfold qjoin
      rw [List.append_assoc], ?_⟩
    unfold qjoin
    rw [getD_set_self qs 0 (qs.getD 0 [] ++ [n]) [] (by omega),
      getD_set_ne qs 0 1 (qs.getD 0 [] ++ [n]) [] (by omega),
      getD_set_ne qs 0 2 (qs.getD 0 [] ++ [n]) [] (by omega)]
    simp [List.append_assoc]
  · refine ⟨qs.getD 0 [] ++ qs.getD 1 [], qs.getD 2 [], rfl, ?_⟩
    unfold qjoin
    rw [getD_set_self qs 1 (qs.getD 1 [] ++ [n]) [] (by omega),
      getD_set_ne qs 1 0 (qs.getD 1 [] ++ [n]) [] (by omega),
      getD_set_ne qs 1 2 (qs.getD 1 [] ++ [n]) [] (by omega)]
    simp [List.append_assoc]
  · refine ⟨qs.getD 0 [] ++ qs.getD 1 [] ++ qs.getD 2 [], [], by simp [qjoin], ?_⟩
    unfold qjoin
    rw [getD_set_self qs 2 (qs.getD 2 [] ++ [n]) [] (by omega),
      getD_set_ne qs 2 0 (qs.getD 2 [] ++ [n]) [] (by omega),
      getD_set_ne qs 2 1 (qs.getD 2 [] ++ [n]) [] (by omega)]
    simp [List.append_assoc]

/-- The first non-empty queue yields the head of the joined queues. -/
theorem firstNonEmptyQueue_spec (qs : List (List Nat)) (hlen : qs.length = 3)
    (i j : Nat) (q2 : List Nat) (h : firstNonEmptyQueue qs = some (i, j, q2)) :
    i < 3 ∧ qjoin qs = j :: qjoin (qs.set i q2) := by
  unfold firstNonEmptyQueue at h
  cases h0 : qs.getD 0 [] with
  | cons a as =>
    simp only [h0, Option.some.injEq, Prod.mk.injEq] at h
    obtain ⟨hi, hj, hq⟩ := h
    subst hi
    subst hj
    subst hq
    refine ⟨by omega, ?_⟩
    unfold qjoin
    rw [getD_set_self qs 0 as [] (by omega),
      getD_set_ne qs 0 1 as [] (by omega), getD_set_ne qs 0 2 as [] (by omega), h0]
    simp
  | nil =>
    simp only [h0] at h
    cases h1 : qs.getD 1 [] with
    | cons a as =>
      simp only [h1, Option.some.injEq, Prod.mk.injEq] at h
      obtain ⟨hi, hj, hq⟩ := h
      subst hi
      subst hj
      subst hq
      refine ⟨by omega, ?_⟩
      unfold qjoin
      rw [getD_set_self qs 1 as [] (by omega),
        getD_set_ne qs 1 0 as [] (by omega), getD_set_ne qs 1 2 as [] (by omega),
        h0, h1]
      simp
    | nil =>
      simp only [h1] at h
      cases h2 : qs.getD 2 [] with
      | cons a as =>
        simp only [h2, Option.some.injEq, Prod.mk.injEq] at h
        obtain ⟨hi, hj, hq⟩ := h
        subst hi
        subst hj
        subst hq
        refine ⟨by omega, ?_⟩
        unfold qjoin
        rw [getD_set_self qs 2 as [] (by omega),
          getD_set_ne qs 2 0 as [] (by omega), getD_set_ne qs 2 1 as [] (by omega),
          h0, h1, h2]
        simp
      | nil =>
        simp only [h2] at h
        exact Option.noConfusion h

theorem onlineMlfqArrive1_procs (st : OnlineMLFQState) (cb : String × Nat) :
    (onlineMlfqArrive1 st cb).procs =
      st.procs ++ [{ command := cb.1, arrival_time := cb.2 }] := rfl

theorem onlineMlfqArrive1_queues (st : OnlineMLFQState) (cb : String × Nat) :
    (onlineMlfqArrive1 st cb).queues =
      st.queues.set
        (getMLFQIndex st.quanta { command := cb.1, arrival_time := cb.2 } st.table)
        (st.queues.getD
          (getMLFQIndex st.quanta { command := cb.1, arrival_time := cb.2 } st.table) []
          ++ [st.procs.length]) := rfl

/-- One online-MLFQ arrival preserves the run invariant: the fresh record is
eligible and its index is fresh. -/
theorem onlineMlfqArrive1_inv (st : OnlineMLFQState) (cb : String × Nat)
    (h : onlineMlfqInv st) : onlineMlfqInv (onlineMlfqArrive1 st cb) := by
  obtain ⟨hflags, hlen, hnd, hval⟩ := h
  have hfresh : st.procs.length ∉ qjoin st.queues := by
    intro hmem
    obtain ⟨p, hp, _⟩ := hval _ hmem
    have := lt_of_getElem?_some hp
    omega
  have hidx3 := getMLFQIndex_lt_three st.quanta
    { command := cb.1, arrival_time := cb.2 } st.table
  obtain ⟨x, y, hxy, hxy2⟩ := qjoin_enqueue st.queues hlen _ hidx3 st.procs.length
  refine ⟨?_, ?_, ?_, ?_⟩
  · intro q hq
    rw [onlineMlfqArrive1_procs] at hq
    rcases List.mem_append.mp hq with h1 | h1
    · exact hflags q h1
    · rcases List.mem_singleton.mp h1 with rfl
      intro hcon
      exact Bool.noConfusion hcon.1
  · rw [onlineMlfqArrive1_queues, List.length_set]
    exact hlen
  · rw [onlineMlfqArrive1_queues, hxy2]
    refine nodup_insert_middle x y _ ?_ ?_
    · rw [← hxy]
      exact hnd
    · rw [← hxy]
      exact hfresh
  · intro k hk
    rw [onlineMlfqArrive1_queues, hxy2] at hk
    rw [onlineMlfqArrive1_procs]
    rcases (mem_insert_middle x y st.procs.length k).mp hk with h1 | h1
    · subst h1
      exact ⟨{ command := cb.1, arrival_time := cb.2 },
        List.getElem?_concat_length _ _, rfl⟩
    · rw [← hxy] at h1
      obtain ⟨p, hp, hel⟩ := hval k h1
      exact ⟨p, by
        rw [getElem?_append_left_of_lt _ _ _ (lt_of_getElem?_some hp)]
        exact hp, hel⟩

/-- Arrivals never modify an existing record. -/
theorem onlineMlfqArrive1_stable (st : OnlineMLFQState) (cb : String × Nat)
    (j : Nat) (p : Process) (hj : st.procs[j]? = some p) :
    (onlineMlfqArrive1 st cb).procs[j]? = some p := by
  rw [onlineMlfqArrive1_procs,
    getElem?_append_left_of_lt _ _ _ (lt_of_getElem?_some hj)]
  exact hj

theorem foldl_onlineMlfqArrive1_inv :
    ∀ (cbs : List (String × Nat)) (st : OnlineMLFQState), onlineMlfqInv st →
      onlineMlfqInv (cbs.foldl onlineMlfqArrive1 st) := by
  intro cbs
  induction cbs with
  | nil => intro st h; exact h
  | cons cb rest ih => intro st h; exact ih _ (onlineMlfqArrive1_inv st cb h)

theorem foldl_onlineMlfqArrive1_stable :
    ∀ (cbs : List (String × Nat)) (st : OnlineMLFQState) (j : Nat) (p : Process),
      st.procs[j]? = some p →
      (cbs.foldl onlineMlfqArrive1 st).procs[j]? = some p := by
  intro cbs
  induction cbs with
  | nil => intro st j p hj; exact hj
  | cons cb rest ih =>
    intro st j p hj
    exact ih _ j p (onlineMlfqArrive1_stable st cb j p hj)

/-- Invariant assembly for the dispatch outcomes that leave the dispatched
index out of the queues (waitpid failure and both exit branches). -/
theorem onlineMlfqInv_parts_removed (st2 : OnlineMLFQState)
    (procs0 : List Process) (j : Nat) (pnew : Process)
    (hprocs : st2.procs = procs0.set j pnew) (hq3 : st2.queues.length = 3)
    (hflags0 : ∀ p ∈ procs0, ¬(p.finished = true ∧ p.error = true))
    (hPnew : ¬(pnew.finished = true ∧ pnew.error = true))
    (hnd : (qjoin st2.queues).Nodup)
    (hjnot : j ∉ qjoin st2.queues)
    (hval : ∀ k ∈ qjoin st2.queues, validIdx procs0 k) :
    onlineMlfqInv st2 := by
  refine ⟨?_, hq3, hnd, ?_⟩
  · intro q hq
    rw [hprocs] at hq
    rcases List.mem_or_eq_of_mem_set hq with h1 | h1
    · exact hflags0 q h1
    · rw [h1]
      exact hPnew
  · intro k hk
    obtain ⟨p, hp, hel⟩ := hval k hk
    refine ⟨p, ?_, hel⟩
    rw [hprocs, List.getElem?_set_ne (fun hjk => hjnot (by rw [hjk]; exact hk))]
    exact hp

/-- Invariant assembly for the still-running outcome, which re-enqueues the
dispatched index behind the demotion target. -/
theorem onlineMlfqInv_parts_requeued (st2 : OnlineMLFQState)
    (procs0 : List Process) (j : Nat) (pnew : Process)
    (hprocs : st2.procs = procs0.set j pnew) (hq3 : st2.queues.length = 3)
    (hflags0 : ∀ p ∈ procs0, ¬(p.finished = true ∧ p.error = true))
    (hPnew : ¬(pnew.finished = true ∧ pnew.error = true))
    (helnew : eligible pnew) (hjlt : j < procs0.length)
    (x y : List Nat) (hsplit : qjoin st2.queues = x ++ j :: y)
    (hnd0 : (x ++ y).Nodup) (hjnot : j ∉ x ++ y)
    (hval0 : ∀ k ∈ x ++ y, validIdx procs0 k) :
    onlineMlfqInv st2 := by
  refine ⟨?_, hq3, ?_, ?_⟩
  · intro q hq
    rw [hprocs] at hq
    rcases List.mem_or_eq_of_mem_set hq with h1 | h1
    · exact hflags0 q h1
    · rw [h1]
      exact hPnew
  · rw [hsplit]
    exact nodup_insert_middle x y j hnd0 hjnot
  · intro k hk
    rw [hsplit] at hk
    rcases (mem_insert_middle x y j k).mp hk with h1 | h1
    · subst h1
      refine ⟨pnew, ?_, helnew⟩
      rw [hprocs]
      exact List.getElem?_set_self hjlt
    · obtain ⟨p, hp, hel⟩ := hval0 k h1
      refine ⟨p, ?_, hel⟩
      rw [hprocs, List.getElem?_set_ne (fun hjk => hjnot (by rw [hjk]; exact h1))]
      exact hp

theorem eligible_not_both {p : Process} (h : eligible p) :
    ¬(p.finished = true ∧ p.error = true) := by
  intro hc
  unfold eligible at h
  rw [hc.1] at h
  simp at h

theorem not_both_rrFinish {p : Process} (t : Nat) (h : eligible p) :
    ¬((rrFinish p t).finished = true ∧ (rrFinish p t).error = true) := by
  intro hc
  have he : (rrFinish p t).error = p.error := rfl
  rw [he] at hc
  unfold eligible at h
  rw [hc.2] at h
  simp at h

theorem not_both_rrError {p : Process} (t : Nat) (h : eligible p) :
    ¬((rrError p t).finished = true ∧ (rrError p t).error = true) := by
  intro hc
  have hf : (rrError p t).finished = p.finished := rfl
  rw [hf] at hc
  unfold eligible at h
  rw [hc.1] at h
  simp at h

/-- One online-MLFQ dispatch preserves the run invariant.  The dequeued
index is eligible by the queue-validity invariant, so the loop (which has
no terminal-skip check of its own) never dispatches a terminal record; the
outcome is either dropped from the queues or re-enqueued still eligible. -/
theorem onlineMlfqDispatch_inv (st : OnlineMLFQState) (ev : OnlineMLFQIteration)
    (h : onlineMlfqInv st) : onlineMlfqInv (onlineMlfqDispatch st ev) := by
  unfold onlineMlfqDispatch
  split
  · exact h
  split
  · exact onlineMlfqBoostCheck_inv st ev h
  next i j q2 hfq =>
    split
    · exact h
    next p hp =>
      obtain ⟨hflags, hlen, hnd, hval⟩ := h
      obtain ⟨hi3, hjoin⟩ := firstNonEmptyQueue_spec st.queues hlen i j q2 hfq
      have hjmem : j ∈ qjoin st.queues := by
        rw [hjoin]
        exact List.mem_cons_self _ _
      obtain ⟨p0, hp0, hel0⟩ := hval j hjmem
      have hpp : p0 = p := by
        rw [hp0] at hp
        exact Option.some.inj hp
      rw [hpp] at hel0
      have hjlt : j < st.procs.length := lt_of_getElem?_some hp0
      have hnd' := hnd
      rw [hjoin] at hnd'
      have hjnot : j ∉ qjoin (st.queues.set i q2) := (List.nodup_cons.mp hnd').1
      have hnd1 : (qjoin (st.queues.set i q2)).Nodup := (List.nodup_cons.mp hnd').2
      have hval1 : ∀ k ∈ qjoin (st.queues.set i q2), validIdx st.procs k := by
        intro k hk
        refine hval k ?_
        rw [hjoin]
        exact List.mem_cons_of_mem _ hk
      have hlen1 : (st.queues.set i q2).length = 3 := by
        rw [List.length_set]
        exact hlen
      have htlt : (if i < 2 then i + 1 else i) < 3 := by split <;> omega
      obtain ⟨x, y, hxy, hxy2⟩ :=
        qjoin_enqueue (st.queues.set i q2) hlen1 (if i < 2 then i + 1 else i) htlt j
      have hnd0 : (x ++ y).Nodup := by
        rw [← hxy]
        exact hnd1
      have hjnot0 : j ∉ x ++ y := by
        rw [← hxy]
        exact hjnot
      have hval0 : ∀ k ∈ x ++ y, validIdx st.procs k := by
        rw [← hxy]
        exact hval1
      split
      · have helE : eligible (executeProcess p ev.tRun ev.forkResult) :=
          eligible_executeProcess _ _ hel0
        split
        · exact onlineMlfqBoostCheck_inv _ ev
            (onlineMlfqInv_parts_removed _ st.procs j _ rfl hlen1 hflags
              (eligible_not_both helE) hnd1 hjnot hval1)
        · exact onlineMlfqBoostCheck_inv _ ev
            (onlineMlfqInv_parts_requeued _ st.procs j _ rfl
              (by simp only [List.length_set]; exact hlen) hflags
              (eligible_not_both (eligible_pauseProcess _ helE))
              (eligible_pauseProcess _ helE) hjlt x y hxy2 hnd0 hjnot0 hval0)
        · split
          · exact onlineMlfqBoostCheck_inv _ ev
              (onlineMlfqInv_parts_removed _ st.procs j _ rfl hlen1 hflags
                (not_both_rrFinish _ helE) hnd1 hjnot hval1)
          · exact onlineMlfqBoostCheck_inv _ ev
              (onlineMlfqInv_parts_removed _ st.procs j _ rfl hlen1 hflags
                (not_both_rrError _ helE) hnd1 hjnot hval1)
      · have helR : eligible (resumeProcess p ev.tRun) :=
          eligible_resumeProcess _ hel0
        split
        · exact onlineMlfqBoostCheck_inv _ ev
            (onlineMlfqInv_parts_removed _ st.procs j _ rfl hlen1 hflags
              (eligible_not_both helR) hnd1 hjnot hval1)
        · exact onlineMlfqBoostCheck_inv _ ev
            (onlineMlfqInv_parts_requeued _ st.procs j _ rfl
              (by simp only [List.length_set]; exact hlen) hflags
              (eligible_not_both (eligible_pauseProcess _ helR))
              (eligible_pauseProcess _ helR) hjlt x y hxy2 hnd0 hjnot0 hval0)
        · split
          · exact onlineMlfqBoostCheck_inv _ ev
              (onlineMlfqInv_parts_removed _ st.procs j _ rfl hlen1 hflags
                (not_both_rrFinish _ helR) hnd1 hjnot hval1)
          · exact onlineMlfqBoostCheck_inv _ ev
              (onlineMlfqInv_parts_removed _ st.procs j _ rfl hlen1 hflags
                (not_both_rrError _ helR) hnd1 hjnot hval1)

/-- At states satisfying the run invariant, one online-MLFQ dispatch never
modifies a terminal record: whatever it dequeues is eligible, hence a
different index. -/
theorem onlineMlfqDispatch_terminal_stable (st : OnlineMLFQState)
    (ev : OnlineMLFQIteration) (hinv : onlineMlfqInv st) (jj : Nat) (pp : Process)
    (hj : st.procs[jj]? = some pp) (hterm : pp.finished = true ∨ pp.error = true) :
    (onlineMlfqDispatch st ev).procs[jj]? = some pp := by
  obtain ⟨hflags, hlen, hnd, hval⟩ := hinv
  unfold onlineMlfqDispatch
  split
  · exact hj
  split
  · rw [onlineMlfqBoostCheck_procs]
    exact hj
  next i j q2 hfq =>
    split
    · exact hj
    next p hp =>
      obtain ⟨hi3, hjoin⟩ := firstNonEmptyQueue_spec st.queues hlen i j q2 hfq
      have hjmem : j ∈ qjoin st.queues := by
        rw [hjoin]
        exact List.mem_cons_self _ _
      obtain ⟨p0, hp0, hel0⟩ := hval j hjmem
      have hpp : p0 = p := by
        rw [hp0] at hp
        exact Option.some.inj hp
      rw [hpp] at hel0
      have hne : j ≠ jj := by
        intro hejj
        rw [hejj, hj] at hp
        have hpe : p = pp := (Option.some.inj hp).symm
        rw [hpe] at hel0
        rcases (eligible_iff pp).mp hel0 with ⟨hf, he⟩
        rcases hterm with h3 | h3
        · rw [hf] at h3
          exact Bool.noConfusion h3
        · rw [he] at h3
          exact Bool.noConfusion h3
      split
      · split
        · simp only [onlineMlfqBoostCheck_procs]
          rw [List.getElem?_set_ne hne]
          exact hj
        · simp only [onlineMlfqBoostCheck_procs]
          rw [List.getElem?_set_ne hne]
          exact hj
        · split
          · simp only [onlineMlfqBoostCheck_procs]
            rw [List.getElem?_set_ne hne]
            exact hj
          · simp only [onlineMlfqBoostCheck_procs]
            rw [List.getElem?_set_ne hne]
            exact hj
      · split
        · simp only [onlineMlfqBoostCheck_procs]
          rw [List.getElem?_set_ne hne]
          exact hj
        · simp only [onlineMlfqBoostCheck_procs]
          rw [List.getElem?_set_ne hne]
          exact hj
        · split
          · simp only [onlineMlfqBoostCheck_procs]
            rw [List.getElem?_set_ne hne]
            exact hj
          · simp only [onlineMlfqBoostCheck_procs]
            rw [List.getElem?_set_ne hne]
            exact hj

/-- One outer online-MLFQ iteration preserves the run invariant. -/
theorem onlineMlfqStep_inv (st : OnlineMLFQState) (h : onlineMlfqInv st) :
    onlineMlfqInv (onlineMlfqStep st) := by
  unfold onlineMlfqStep
  split
  · exact h
  next ev rest hev =>
    exact onlineMlfqDispatch_inv _ ev
      (foldl_onlineMlfqArrive1_inv ev.arrivals { st with events := rest } h)

/-- At states satisfying the run invariant, one outer online-MLFQ iteration
never modifies a terminal record. -/
theorem onlineMlfqStep_terminal_stable (st : OnlineMLFQState)
    (hinv : onlineMlfqInv st) (j : Nat) (p : Process)
    (hj : st.procs[j]? = some p) (hterm : p.finished = true ∨ p.error = true) :
    (onlineMlfqStep st).procs[j]? = some p := by
  unfold onlineMlfqStep
  split
  · exact hj
  next ev rest hev =>
    exact onlineMlfqDispatch_terminal_stable _ ev
      (foldl_onlineMlfqArrive1_inv ev.arrivals { st with events := rest } hinv) j p
      (foldl_onlineMlfqArrive1_stable ev.arrivals { st with events := rest } j p hj)
      hterm

theorem onlineMlfqRun_inv :
    ∀ (n : Nat) (s : OnlineMLFQState), onlineMlfqInv s →
      onlineMlfqInv (iterateStep onlineMlfqStep n s) := by
  intro n
  induction n with
  | zero => intro s h; exact h
  | succ m ih => intro s h; exact ih (onlineMlfqStep s) (onlineMlfqStep_inv s h)

/-- The empty starting state of the online MLFQ satisfies the run
invariant. -/
theorem onlineMlfqInit_inv (q0 q1 q2 boostTime : Nat)
    (its : List OnlineMLFQIteration) :
    onlineMlfqInv
      { procs := [], queues := [[], [], []], table := emptyHashTable, remaining := 0,
        lastBoostTime := 0, boostTime := boostTime, quanta := [q0, q1, q2],
        events := its } := by
  refine ⟨?_, rfl, ?_, ?_⟩
  · intro p hp
    exact absurd hp (List.not_mem_nil p)
  · show (qjoin [[], [], []]).Nodup
    decide
  · intro k hk
    simp [qjoin] at hk

theorem onlineSjfRun_flags :
    ∀ (n : Nat) (s : OnlineSJFState),
      (∀ p ∈ s.procs, ¬(p.finished = true ∧ p.error = true)) →
      ∀ p ∈ (iterateStep onlineSjfStep n s).procs,
        ¬(p.finished = true ∧ p.error = true) := by
  intro n
  induction n with
  | zero => intro s h; exact h
  | succ m ih => intro s h; exact ih (onlineSjfStep s) (onlineSjfStep_flags s h)

/-- C7: the finished and error flags are never both true for any record at
any point of any modelled scheduler run — FCFS, RoundRobin, offline MLFQ,
online SJF and online MLFQ; each terminal transition sets exactly one of
them (the transition functions preserve the exclusion), and once a record
is terminal a step of any of the loops leaves it entirely unchanged: the
RoundRobin and offline-MLFQ loops skip terminal records, the online SJF
scan never selects one, and the online MLFQ (which has no terminal-skip
check) never holds a terminal record in its queues, an invariant of every
reachable state of its runs. -/
theorem flags_exclusive_and_terminal_frozen :
    (∀ (ps : List Process) (es : List FCFSEvent) (q : Process),
      q ∈ FCFS ps es → ¬(q.finished = true ∧ q.error = true)) ∧
    (∀ (fuel : Nat) (ps : List Process) (es : List RREvent) (q : Process),
      q ∈ (RoundRobin fuel ps es).procs → ¬(q.finished = true ∧ q.error = true)) ∧
    (∀ (fuel : Nat) (ps : List Process) (es : List MLFQEvent) (bt : Nat) (q : Process),
      q ∈ (MultiLevelFeedbackQueue fuel ps es bt).procs →
        ¬(q.finished = true ∧ q.error = true)) ∧
    (∀ (s : RRState) (j : Nat) (p : Process), s.procs[j]? = some p →
      p.finished = true ∨ p.error = true → (rrStep s).procs[j]? = some p) ∧
    (∀ (s : MLFQState) (j : Nat) (p : Process), s.procs[j]? = some p →
      p.finished = true ∨ p.error = true → (mlfqStep s).procs[j]? = some p) ∧
    (∀ (fuel : Nat) (its : List SJFIteration) (q : Process),
      q ∈ (ShortestJobFirst fuel its).procs → ¬(q.finished = true ∧ q.error = true)) ∧
    (∀ (s : OnlineSJFState) (j : Nat) (p : Process), s.procs[j]? = some p →
      p.finished = true ∨ p.error = true → (onlineSjfStep s).procs[j]? = some p) ∧
    (∀ (fuel q0 q1 q2 bt : Nat) (its : List OnlineMLFQIteration) (q : Process),
      q ∈ (onlineMultiLevelFeedbackQueue fuel q0 q1 q2 bt its).procs →
        ¬(q.finished = true ∧ q.error = true)) ∧
    (∀ (fuel q0 q1 q2 bt : Nat) (its : List OnlineMLFQIteration) (j : Nat) (p : Process),
      (onlineMultiLevelFeedbackQueue fuel q0 q1 q2 bt its).procs[j]? = some p →
      p.finished = true ∨ p.error = true →
      (onlineMlfqStep (onlineMultiLevelFeedbackQueue fuel q0 q1 q2 bt its)).procs[j]? =
        some p) := by
  have hexec : ∀ (p : Process) (t : Nat) (f : Int), True → eligible p →
      ¬(p.finished = true ∧ p.error = true) →
      ¬((executeProcess p t f).finished = true ∧ (executeProcess p t f).error = true) := by
    intro p t f _ _ hPp hcon
    rcases executeProcess_flags p t f with ⟨h1, h2⟩
    rw [h1, h2] at hcon
    exact hPp hcon
  have hres : ∀ (p : Process) (t : Nat), True → eligible p →
      ¬(p.finished = true ∧ p.error = true) →
      ¬((resumeProcess p t).finished = true ∧ (resumeProcess p t).error = true) := by
    intro p t _ _ hPp hcon
    rcases resumeProcess_flags p t with ⟨h1, h2⟩
    rw [h1, h2] at hcon
    exact hPp hcon
  have hpause : ∀ (p : Process) (t : Nat), True → eligible p →
      ¬(p.finished = true ∧ p.error = true) →
      ¬((pauseProcess p t).finished = true ∧ (pauseProcess p t).error = true) := by
    intro p t _ _ hPp hcon
    rcases pauseProcess_flags p t with ⟨h1, h2⟩
    rw [h1, h2] at hcon
    exact hPp hcon
  have hfin : ∀ (p : Process) (t : Nat), True → eligible p →
      ¬(p.finished = true ∧ p.error = true) →
      ¬((rrFinish p t).finished = true ∧ (rrFinish p t).error = true) := by
    intro p t _ hel _ hcon
    have h2 : (rrFinish p t).error = p.error := rfl
    rw [h2, ((eligible_iff p).mp hel).2] at hcon
    exact Bool.noConfusion hcon.2
  have herr : ∀ (p : Process) (t : Nat), True → eligible p →
      ¬(p.finished = true ∧ p.error = true) →
      ¬((rrError p t).finished = true ∧ (rrError p t).error = true) := by
    intro p t _ hel _ hcon
    have h1 : (rrError p t).finished = p.finished := rfl
    rw [h1, ((eligible_iff p).mp hel).1] at hcon
    exact Bool.noConfusion hcon.1
  have hffin : ∀ (p : Process) (t : Nat), True → eligible p →
      ¬(p.finished = true ∧ p.error = true) →
      ¬((fcfsFinish p t).finished = true ∧ (fcfsFinish p t).error = true) := by
    intro p t _ hel _ hcon
    have h2 : (fcfsFinish p t).error = p.error := rfl
    rw [h2, ((eligible_iff p).mp hel).2] at hcon
    exact Bool.noConfusion hcon.2
  have hferr : ∀ (p : Process) (t : Nat), True → eligible p →
      ¬(p.finished = true ∧ p.error = true) →
      ¬((fcfsError p t).finished = true ∧ (fcfsError p t).error = true) := by
    intro p t _ hel _ hcon
    have h1 : (fcfsError p t).finished = p.finished := rfl
    rw [h1, ((eligible_iff p).mp hel).1] at hcon
    exact Bool.noConfusion hcon.1
  have hinit : ∀ (p : Process),
      ¬((initializeProcess p).finished = true ∧ (initializeProcess p).error = true) := by
    intro p hcon
    exact Bool.noConfusion hcon.1
  have hinitel : ∀ (p : Process), eligible (initializeProcess p) := by
    intro p
    rfl
  refine ⟨?_, ?_, ?_, ?_, ?_, ?_, ?_, ?_, ?_⟩
  · intro ps es q hq
    refine fcfsRun_preserves (fun r => ¬(r.finished = true ∧ r.error = true))
      (fun _ => True) hexec hffin hferr (ps.map initializeProcess) es ?_
      (fun e _ => ⟨trivial, trivial⟩) q hq
    intro r hr
    rcases List.mem_map.mp hr with ⟨x, _, hx⟩
    rw [← hx]
    exact ⟨hinit x, hinitel x⟩
  · intro fuel ps es q hq
    refine rrRun_preserves (fun r => ¬(r.finished = true ∧ r.error = true))
      (fun _ => True) hexec hres hpause hfin herr fuel (rrInit ps es) ?_ ?_ q hq
    · intro r hr
      rcases List.mem_map.mp hr with ⟨x, _, hx⟩
      rw [← hx]
      exact hinit x
    · intro e _
      exact ⟨trivial, by cases e.wait <;> trivial⟩
  · intro fuel ps es bt q hq
    refine mlfqRun_preserves (fun r => ¬(r.finished = true ∧ r.error = true))
      (fun _ => True) hexec hres hpause hfin herr fuel (mlfqInit ps es bt) ?_ ?_ q hq
    · intro r hr
      rcases List.mem_map.mp hr with ⟨x, _, hx⟩
      rw [← hx]
      exact hinit x
    · intro e _
      exact ⟨trivial, by cases e.wait <;> trivial⟩
  · exact rrStep_terminal_stable
  · exact mlfqStep_terminal_stable
  · intro fuel its q hq
    exact onlineSjfRun_flags fuel
      { procs := [], table := emptyHashTable, remaining := 0, events := its }
      (fun p hp => absurd hp (List.not_mem_nil p)) q hq
  · exact onlineSjfStep_terminal_stable
  · intro fuel q0 q1 q2 bt its q hq
    exact (onlineMlfqRun_inv fuel _ (onlineMlfqInit_inv q0 q1 q2 bt its)).1 q hq
  · intro fuel q0 q1 q2 bt its j p hj hterm
    exact onlineMlfqStep_terminal_stable _
      (onlineMlfqRun_inv fuel _ (onlineMlfqInit_inv q0 q1 q2 bt its)) j p hj hterm

theorem flags_exclusive_and_terminal_frozen_witness :
    ¬((initializeProcess { command := "z" }).finished = true ∧
      (initializeProcess { command := "z" }).error = true) ∧
    (rrStep { procs := [erroredRecord], i := 0, remaining := 1, halted := false, broke := false, events := [] }).procs[0]? = some erroredRecord ∧
    (onlineSjfStep { procs := [erroredRecord], table := emptyHashTable, remaining := 1, events := [] }).procs[0]? = some erroredRecord ∧
    (onlineMlfqStep (onlineMultiLevelFeedbackQueue 1 2 4 8 100
      [{ arrivals := [("a", 0)], tRun := 1, forkResult := 5,
         wait := WaitResult.exited false 3, tBoostCheck := 4, tBoostSet := 4 }])).procs[0]? =
      some onlineErroredRecord :=
  ⟨flags_exclusive_and_terminal_frozen.2.1 0 [{ command := "z" }] []
      (initializeProcess { command := "z" }) (by decide),
   flags_exclusive_and_terminal_frozen.2.2.2.1
      { procs := [erroredRecord], i := 0, remaining := 1, halted := false, broke := false, events := [] }
      0 erroredRecord rfl (Or.inr rfl),
   flags_exclusive_and_terminal_frozen.2.2.2.2.2.2.1
      { procs := [erroredRecord], table := emptyHashTable, remaining := 1, events := [] }
      0 erroredRecord rfl (Or.inr rfl),
   flags_exclusive_and_terminal_frozen.2.2.2.2.2.2.2.2
      1 2 4 8 100
      [{ arrivals := [("a", 0)], tRun := 1, forkResult := 5,
         wait := WaitResult.exited false 3, tBoostCheck := 4, tBoostSet := 4 }]
      0 onlineErroredRecord (by decide) (Or.inr rfl)⟩

end Sched
